import Mathlib

/-!
Verification development for the svg-panel-generator repository.

This file gives a shallow embedding, in Lean 4, of the core functions of the
repository (grid layout, panel slicing, text fitting, color normalization and
matching, and the SVG layer-processing pipeline of `exportPanels.ts`), and
settles the claims of the specification against this embedding.

Modelling conventions:
* JavaScript numbers are modelled as rationals.  Division by zero (which in
  JavaScript yields Infinity/NaN) does not arise on the code paths proved
  here; where the source guards against non-finite values the guard is
  modelled by the corresponding zero test.
* The browser DOM is modelled by the rose tree `XNode` (tag, attribute list,
  children).  Attribute lists behave like DOM attribute maps:
  getAttribute returns the first binding, setAttribute replaces in place or
  appends, removeAttribute filters.
* Geometry measurement (`getBBox`, and measuring a path's `d` string) is a
  browser facility; it is modelled by oracle parameters
  `bbox : XNode -> Option Rect` and `dBBox : String -> Option Rect`.
* Text measurement (`measureTextSvg`) is likewise modelled as an oracle
  `measure : Rat -> TextMetrics` for a fixed text and font.
* String-level regular expressions of the source are modelled by explicit
  scanners with the same matching semantics (leftmost match, greedy
  character classes, the `(?:^|[^-])` guard before `stroke`), restricted to
  ASCII case folding and whitespace.
* `DOMParser` failure and a missing `svg` root are modelled by dedicated
  constructors of `SvgInput`; a parsed document carries the style map
  extracted from its text by `parseSvgStyleBlock` as an abstract component.
-/

/-! ## Grid layout (`panelLayout.ts`: `computeGridLayout`, `computePanelCount`) -/

structure PanelLayoutSettings where
  panelWidthMm : ℚ
  panelHeightMm : ℚ
  cellSizeMm : ℚ
  marginMm : ℚ
  gutterMm : ℚ

structure Placement where
  indexInPanel : ℤ
  x : ℚ
  y : ℚ
  size : ℚ

structure GridLayout where
  cols : ℤ
  rows : ℤ
  capacityPerPanel : ℤ
  placements : List Placement

/-- Embedding of `computeGridLayout`:
cols = floor((usableW + gutter) / (cellSize + gutter)), rows analogously,
capacityPerPanel = max(0, cols * rows); placements enumerated row-major
only when both cols and rows are positive. -/
def computeGridLayout (s : PanelLayoutSettings) : GridLayout :=
  let usableW := s.panelWidthMm - s.marginMm * 2
  let usableH := s.panelHeightMm - s.marginMm * 2
  let cols : ℤ := Int.floor ((usableW + s.gutterMm) / (s.cellSizeMm + s.gutterMm))
  let rows : ℤ := Int.floor ((usableH + s.gutterMm) / (s.cellSizeMm + s.gutterMm))
  let capacityPerPanel : ℤ := max 0 (cols * rows)
  let placements : List Placement :=
    if 0 < cols ∧ 0 < rows then
      (List.range rows.toNat).flatMap (fun r =>
        (List.range cols.toNat).map (fun c =>
          { indexInPanel := (r : ℤ) * cols + (c : ℤ)
            x := s.marginMm + (c : ℚ) * (s.cellSizeMm + s.gutterMm)
            y := s.marginMm + (r : ℚ) * (s.cellSizeMm + s.gutterMm)
            size := s.cellSizeMm }))
    else []
  { cols := cols, rows := rows, capacityPerPanel := capacityPerPanel, placements := placements }

/-- Embedding of `computePanelCount`: 0 when capacity is non-positive, else
ceil(itemCount / capacity) (integer ceiling division on naturals). -/
def computePanelCount (itemCount : ℕ) (capacityPerPanel : ℤ) : ℕ :=
  if capacityPerPanel ≤ 0 then 0
  else (itemCount + capacityPerPanel.toNat - 1) / capacityPerPanel.toNat

/-- Embedding of the per-panel item slicing of `buildPanelSvgs`
(`exportPanels.ts`, the loop over `panelIndex`): panel `idx` is assigned
`selected.slice(idx*capacity, min(n, (idx+1)*capacity))`, and the inner
rendering loop stops at the first missing placement
(`if (!placement) break`), i.e. keeps at most `placements.length` items. -/
def buildPanelItems {α : Type} (selected : List α) (s : PanelLayoutSettings) : List (List α) :=
  let grid := computeGridLayout s
  let panelCount := computePanelCount selected.length grid.capacityPerPanel
  (List.range panelCount).map (fun panelIndex =>
    let cap := grid.capacityPerPanel.toNat
    let start := panelIndex * cap
    let stop := min selected.length (start + cap)
    let items := (selected.drop start).take (stop - start)
    items.take grid.placements.length)

/-- The slice the specification assigns to panel `idx`:
the items in `[idx*capacity, min(n, (idx+1)*capacity))`.  This follows the
spec's words and is compared against `buildPanelItems` (refinement). -/
def panelSliceSpec {α : Type} (selected : List α) (cap : ℕ) (idx : ℕ) : List α :=
  (selected.drop (idx * cap)).take (min selected.length ((idx + 1) * cap) - idx * cap)

/-! ## Text fitting (`textFit.ts`: `calculateTextFit`) -/

structure TextMetrics where
  width : ℚ
  height : ℚ
  ascent : ℚ
  descent : ℚ

structure LabelBox where
  x : ℚ
  y : ℚ
  width : ℚ
  height : ℚ

structure TextFit where
  fontSize : ℚ
  x : ℚ
  y : ℚ

/-- Embedding of `calculateTextFit`.  `measure` is the text-measurement
oracle for the fixed text and font (`measureTextSvg` at a given font size).
Degenerate input (empty text or non-positive box) returns the fixed
fallback; otherwise the text is measured at reference size 100, width and
height scales are computed against 99%-of-box, their minimum is taken and
the result clamped to [1, 2000]. -/
def calculateTextFit (measure : ℚ → TextMetrics) (text : String) (box : LabelBox) : TextFit :=
  if text.isEmpty ∨ box.width ≤ 0 ∨ box.height ≤ 0 then
    { fontSize := 12, x := box.x + box.width / 2, y := box.y + box.height }
  else
    let refSize : ℚ := 100
    let measured := measure refSize
    let measuredHeight := if 0 < measured.height then measured.height else refSize * 1.2
    let measuredWidth := if 0 < measured.width then measured.width else (text.length : ℚ) * refSize * 0.6
    let heightScale := box.height * 0.99 / measuredHeight
    let widthScale := box.width * 0.99 / measuredWidth
    let scale := min heightScale widthScale
    let fontSize := max 1 (min (refSize * scale) 2000)
    let final := measure fontSize
    { fontSize := fontSize, x := box.x + box.width / 2, y := box.y + box.height - final.descent }

/-- A concrete measurement oracle: the estimate fallback of `measureTextSvg`
for a one-character text (width 0.6 per char, height 1.2, ascent 0.8,
descent 0.2, at size 100). -/
def constMeasure : ℚ → TextMetrics := fun _ => ⟨60, 120, 80, 40⟩

/-! ## Color normalization and matching (`exportPanels.ts`:
`normalizeColorToHex`, `colorsMatch`) -/

/-- ASCII whitespace as matched by JavaScript `trim` and the `\s` class
(restricted to ASCII; the source strings handled here are ASCII). -/
def isJsWhitespace (c : Char) : Bool :=
  c = ' ' ∨ c = '\t' ∨ c = '\n' ∨ c = '\r' ∨ c = '\x0b' ∨ c = '\x0c'

/-- ASCII lower-casing of one character (JavaScript `toLowerCase` on the
ASCII range). -/
def asciiLower (c : Char) : Char :=
  if 'A' ≤ c ∧ c ≤ 'Z' then Char.ofNat (c.toNat + 32) else c

/-- JavaScript `String.prototype.trim` on a character list. -/
def jsTrim (l : List Char) : List Char :=
  ((l.dropWhile isJsWhitespace).reverse.dropWhile isJsWhitespace).reverse

/-- JavaScript `s.trim().toLowerCase()` (trim, then ASCII lower-case). -/
def trimLower (l : List Char) : List Char :=
  (jsTrim l).map asciiLower

/-- JavaScript `String.prototype.toLowerCase` on a whole string. -/
def jsToLower (s : String) : String :=
  ⟨s.data.map asciiLower⟩

/-- JavaScript `String.prototype.trim` on a whole string. -/
def jsTrimS (s : String) : String :=
  ⟨jsTrim s.data⟩

def isDigitChar (c : Char) : Bool :=
  '0' ≤ c ∧ c ≤ '9'

def digitsToNat (l : List Char) : ℕ :=
  l.foldl (fun acc c => acc * 10 + (c.toNat - 48)) 0

/-- The named-color table of `normalizeColorToHex`. -/
def namedColors : List (List Char × List Char) :=
  [("black".data, "#000000".data),
   ("white".data, "#ffffff".data),
   ("red".data, "#ff0000".data),
   ("green".data, "#00ff00".data),
   ("blue".data, "#0000ff".data),
   ("lime".data, "#00ff00".data),
   ("none".data, "none".data),
   ("transparent".data, "none".data)]

/-- One attempt of the rgb-regex at the current position: matches
`rgb\s*\(\s*(\d+)\s*,\s*(\d+)\s*,\s*(\d+)\s*\)` starting here and returns
the three digit groups. -/
def matchRgbAt (l : List Char) : Option (ℕ × ℕ × ℕ) :=
  match l with
  | 'r' :: 'g' :: 'b' :: rest =>
    match (rest.dropWhile isJsWhitespace) with
    | '(' :: r2 =>
      let r3 := r2.dropWhile isJsWhitespace
      let d1 := r3.takeWhile isDigitChar
      if d1.isEmpty then none else
      match (r3.drop d1.length).dropWhile isJsWhitespace with
      | ',' :: r4 =>
        let r5 := r4.dropWhile isJsWhitespace
        let d2 := r5.takeWhile isDigitChar
        if d2.isEmpty then none else
        match (r5.drop d2.length).dropWhile isJsWhitespace with
        | ',' :: r6 =>
          let r7 := r6.dropWhile isJsWhitespace
          let d3 := r7.takeWhile isDigitChar
          if d3.isEmpty then none else
          match (r7.drop d3.length).dropWhile isJsWhitespace with
          | ')' :: _ => some (digitsToNat d1, digitsToNat d2, digitsToNat d3)
          | _ => none
        | _ => none
      | _ => none
    | _ => none
  | _ => none

/-- Leftmost match of the (unanchored) rgb regular expression. -/
def findRgb : List Char → Option (ℕ × ℕ × ℕ)
  | [] => none
  | c :: rest =>
    match matchRgbAt (c :: rest) with
    | some v => some v
    | none => findRgb rest

/-- JavaScript `Number.prototype.toString(16)` for a natural number
(lowercase hexadecimal digits; `Nat.toDigits 16 0 = ['0']`). -/
def natToHexChars (n : ℕ) : List Char :=
  Nat.toDigits 16 n

/-- JavaScript `padStart(2, '0')`. -/
def pad2 (l : List Char) : List Char :=
  if l.length < 2 then List.replicate (2 - l.length) '0' ++ l else l

/-- Embedding of `normalizeColorToHex` on a character list: trim and
lower-case; expand `#abc`; otherwise other `#...` tokens are returned
as-is; then the named table; then the rgb form; otherwise the token itself. -/
def normalizeColorToHexL (color : List Char) : List Char :=
  let c := trimLower color
  if c.head? = some '#' then
    if c.length = 4 then
      ['#', c.getD 1 '0', c.getD 1 '0', c.getD 2 '0', c.getD 2 '0', c.getD 3 '0', c.getD 3 '0']
    else c
  else
    match List.lookup c namedColors with
    | some v => v
    | none =>
      match findRgb c with
      | some rgb =>
        '#' :: (pad2 (natToHexChars rgb.1) ++ pad2 (natToHexChars rgb.2.1) ++
          pad2 (natToHexChars rgb.2.2))
      | none => c

/-- `normalizeColorToHex` on strings. -/
def normalizeColorToHex (color : String) : String :=
  ⟨normalizeColorToHexL color.data⟩

def isHexDigitCI (c : Char) : Bool :=
  ('0' ≤ c ∧ c ≤ '9') ∨ ('a' ≤ c ∧ c ≤ 'f') ∨ ('A' ≤ c ∧ c ≤ 'F')

def hexVal (c : Char) : ℕ :=
  if '0' ≤ c ∧ c ≤ '9' then c.toNat - 48
  else if 'a' ≤ c ∧ c ≤ 'f' then c.toNat - 87
  else if 'A' ≤ c ∧ c ≤ 'F' then c.toNat - 55
  else 0

/-- The `parse` helper of `colorsMatch`: matches
`^#([0-9a-f]{2})([0-9a-f]{2})([0-9a-f]{2})$` case-insensitively and
returns the three channel values. -/
def parseHex6 (l : List Char) : Option (ℕ × ℕ × ℕ) :=
  match l with
  | ['#', a, b, c, d, e, f] =>
    if isHexDigitCI a ∧ isHexDigitCI b ∧ isHexDigitCI c ∧
       isHexDigitCI d ∧ isHexDigitCI e ∧ isHexDigitCI f then
      some (hexVal a * 16 + hexVal b, hexVal c * 16 + hexVal d, hexVal e * 16 + hexVal f)
    else none
  | _ => none

def natDist (a b : ℕ) : ℕ :=
  if a ≤ b then b - a else a - b

/-- Embedding of `colorsMatch`: normalized forms equal (also after
lower-casing), or hex-parse both and compare channel-wise with
tolerance 10. -/
def colorsMatchL (c1 c2 : List Char) : Bool :=
  let n1 := normalizeColorToHexL c1
  let n2 := normalizeColorToHexL c2
  if n1 = n2 then true
  else if n1.map asciiLower = n2.map asciiLower then true
  else
    match parseHex6 n1, parseHex6 n2 with
    | some (r1, g1, b1), some (r2, g2, b2) =>
      natDist r1 r2 ≤ 10 ∧ natDist g1 g2 ≤ 10 ∧ natDist b1 b2 ≤ 10
    | _, _ => false

def colorsMatch (c1 c2 : String) : Bool :=
  colorsMatchL c1.data c2.data

def isLowerHexDigit (c : Char) : Bool :=
  ('0' ≤ c ∧ c ≤ '9') ∨ ('a' ≤ c ∧ c ≤ 'f')

/-- The codomain asserted by the specification for `normalize`:
a canonical lowercase six-digit hex color, or the token `none`. -/
def isCanonicalHexOrNone (l : List Char) : Bool :=
  (l = "none".data) ||
    (match l with
     | '#' :: rest => rest.length = 6 && rest.all isLowerHexDigit
     | _ => false)

/-- The 22 characters accepted as hexadecimal digits. -/
def hexDigitChars : List Char :=
  "0123456789abcdefABCDEF".data

/-! ## DOM model -/

/-- A DOM element: tag name, attribute list, children.  Text content is not
modelled (it never influences the processing under study). -/
inductive XNode where
  | elem (tag : String) (attrs : List (String × String)) (children : List XNode)

abbrev Attrs := List (String × String)

def XNode.tag : XNode → String
  | .elem t _ _ => t

def XNode.attrs : XNode → Attrs
  | .elem _ a _ => a

def XNode.children : XNode → List XNode
  | .elem _ _ ch => ch

/-- `getAttribute`: the (first) binding of the name, if any. -/
def getAttr (a : Attrs) (k : String) : Option String :=
  (a.find? (fun p => p.1 == k)).map (fun p => p.2)

/-- `setAttribute`: replace the binding in place, or append a new one. -/
def setAttr (a : Attrs) (k v : String) : Attrs :=
  if a.any (fun p => p.1 == k) then
    a.map (fun p => if p.1 == k then (k, v) else p)
  else a ++ [(k, v)]

/-- `removeAttribute`. -/
def removeAttr (a : Attrs) (k : String) : Attrs :=
  a.filter (fun p => !(p.1 == k))

/-- JavaScript truthiness of a nullable string: present and non-empty. -/
def truthy : Option String → Bool
  | none => false
  | some s => !s.isEmpty

/-- An entry of the class → paint map extracted from the `<style>` block
(`ParsedStyleRule`). -/
structure ParsedStyleRule where
  fill : Option String := none
  stroke : Option String := none
  strokeWidth : Option String := none

/-- The style map produced by `parseSvgStyleBlock` from the raw markup.
It is carried as an abstract input of the parsed document. -/
abbrev StyleMap := List (String × ParsedStyleRule)

/-- Case-insensitive literal prefix match (the property name of a CSS
declaration regex); returns the remainder on success. -/
def stripPrefixCI : List Char → List Char → Option (List Char)
  | [], l => some l
  | _ :: _, [] => none
  | p :: ps, c :: cs => if asciiLower c = p then stripPrefixCI ps cs else none

/-- One attempt of the declaration regex `prop\s*:\s*([^;]+)` at the current
position (case-insensitive property name, given in lowercase).  The capture
is the greedy non-semicolon run after the whitespace; when that run is
empty but whitespace was skipped, backtracking of `\s*` lets the capture
match the last whitespace character. -/
def matchDeclAt (prop : List Char) (l : List Char) : Option (List Char) :=
  match stripPrefixCI prop l with
  | none => none
  | some rest =>
    match rest.dropWhile isJsWhitespace with
    | ':' :: r2 =>
      let ws := r2.takeWhile isJsWhitespace
      let afterWs := r2.drop ws.length
      let cap := afterWs.takeWhile (fun c => !(c == ';'))
      if !cap.isEmpty then some cap
      else if !ws.isEmpty then some [ws.getLast!]
      else none
    | _ => none

/-- Leftmost match of the declaration regex over the string.  When `guard`
is set the position must be the start of the string or be preceded by a
character other than `-` (the `(?:^|[^-])` prefix of the stroke regex);
`prev` is the preceding character. -/
def scanDecl (guard : Bool) (prop : List Char) : Option Char → List Char → Option (List Char)
  | _, [] => none
  | prev, c :: rest =>
    let allowed := !guard ||
      (match prev with
       | none => true
       | some p => !(p == '-'))
    match (if allowed then matchDeclAt prop (c :: rest) else none) with
    | some cap => some cap
    | none => scanDecl guard prop (some c) rest

/-- Extraction of one declaration from a `style` attribute or a CSS rule
body, as in `getElementColors` / `parseSvgStyleBlock`: `fill\s*:\s*([^;]+)`,
`(?:^|[^-])stroke\s*:\s*([^;]+)`, `stroke-width\s*:\s*([^;]+)`
(all case-insensitive). -/
def extractDecl (guard : Bool) (prop : String) (text : String) : Option String :=
  (scanDecl guard prop.data none text.data).map (fun cap => (⟨cap⟩ : String))

-- JavaScript `classAttr.split(/\s+/)`: split on whitespace runs, keeping
-- an empty token at a leading or trailing separator.
mutual
def splitWsTok (acc : List Char) : List Char → List (List Char)
  | [] => [acc.reverse]
  | c :: rest =>
    if isJsWhitespace c then acc.reverse :: splitWsSep rest
    else splitWsTok (c :: acc) rest

def splitWsSep : List Char → List (List Char)
  | [] => [[]]
  | c :: rest => if isJsWhitespace c then splitWsSep rest else splitWsTok [c] rest
end

def jsSplitWs (l : List Char) : List (List Char) :=
  splitWsTok [] l

/-- The resolved fill/stroke/strokeWidth of an element
(`getElementColors`). -/
structure ResolvedColors where
  fill : Option String
  stroke : Option String
  strokeWidth : Option String

/-- Embedding of `getElementColors` on an attribute list: class rules
first (later classes override, truthy fields only), then the inline
`style` attribute (a matching declaration always overrides, trimmed), then
direct attributes (only where the value so far is falsy and the attribute
value is truthy). -/
def getElementColorsA (a : Attrs) (styleMap : StyleMap) : ResolvedColors :=
  let fromClass : Option String × Option String × Option String :=
    match getAttr a "class" with
    | none => (none, none, none)
    | some classAttr =>
      if classAttr.isEmpty then (none, none, none) else
      (jsSplitWs classAttr.data).foldl
        (fun st cls =>
          match List.lookup (⟨cls⟩ : String) styleMap with
          | none => st
          | some rule =>
            (if truthy rule.fill then rule.fill else st.1,
             if truthy rule.stroke then rule.stroke else st.2.1,
             if truthy rule.strokeWidth then rule.strokeWidth else st.2.2))
        (none, none, none)
  let afterStyle : Option String × Option String × Option String :=
    match getAttr a "style" with
    | none => fromClass
    | some styleAttr =>
      if styleAttr.isEmpty then fromClass else
      ((extractDecl false "fill" styleAttr).map jsTrimS |>.orElse (fun _ => fromClass.1),
       (extractDecl true "stroke" styleAttr).map jsTrimS |>.orElse (fun _ => fromClass.2.1),
       (extractDecl false "stroke-width" styleAttr).map jsTrimS |>.orElse (fun _ => fromClass.2.2))
  let fill := if truthy afterStyle.1 then afterStyle.1
    else if truthy (getAttr a "fill") then getAttr a "fill" else afterStyle.1
  let stroke := if truthy afterStyle.2.1 then afterStyle.2.1
    else if truthy (getAttr a "stroke") then getAttr a "stroke" else afterStyle.2.1
  let strokeWidth := if truthy afterStyle.2.2 then afterStyle.2.2
    else if truthy (getAttr a "stroke-width") then getAttr a "stroke-width" else afterStyle.2.2
  { fill := fill, stroke := stroke, strokeWidth := strokeWidth }

inductive Visibility where
  | hidden
  | showBlack
  | showColor
deriving DecidableEq

inductive RenderMode where
  | fillMode
  | strokeMode
deriving DecidableEq

/-- A layer rule (`LayerConfig`). -/
structure LayerConfig where
  color : String
  visibility : Visibility
  renderMode : RenderMode
  outputColor : Option String := none
deriving DecidableEq

/-- Embedding of `findLayerConfig`: normalize the color, bail out on
`none` or an empty result, else the first rule whose color matches with
tolerance. -/
def findLayerConfig (color : String) (layers : List LayerConfig) : Option LayerConfig :=
  let normalized := normalizeColorToHex color
  if normalized = "none" ∨ normalized = "" then none
  else layers.find? (fun layer => colorsMatch normalized layer.color)

/-- A resolved color counts as visible when it is truthy and not `none`
(case-insensitively), as in the layer-mode checks. -/
def visibleColor : Option String → Bool
  | none => false
  | some s => !s.isEmpty && !(jsToLower s == "none")

/-- Word characters of the regex `\b` boundary. -/
def isWordChar (c : Char) : Bool :=
  ('a' ≤ c ∧ c ≤ 'z') ∨ ('A' ≤ c ∧ c ≤ 'Z') ∨ ('0' ≤ c ∧ c ≤ '9') ∨ c = '_'

/-- A `z`/`Z` followed by a word boundary (`/[zZ]\b/`). -/
def hasZWordBoundary : List Char → Bool
  | [] => false
  | [c] => c = 'z' ∨ c = 'Z'
  | c :: d :: rest => ((c = 'z' ∨ c = 'Z') ∧ !isWordChar d) || hasZWordBoundary (d :: rest)

/-- Embedding of `isClosedPath`: the argument is nullable; the data is
closed when it matches `/[zZ]\s*$/` or `/[zZ]\b/`. -/
def isClosedPath : Option String → Bool
  | none => false
  | some d =>
    (match d.data.reverse.dropWhile isJsWhitespace with
     | c :: _ => c = 'z' ∨ c = 'Z'
     | [] => false)
    || hasZWordBoundary d.data

/-- JavaScript `x || dflt` on a nullable string. -/
def orDefault (v : Option String) (dflt : String) : String :=
  match v with
  | none => dflt
  | some s => if s.isEmpty then dflt else s

def shapeTags : List String :=
  ["path", "rect", "circle", "ellipse", "polygon", "polyline", "line", "text", "use"]

def isShapeTag (t : String) : Bool :=
  shapeTags.contains t

/-- The per-element body of the `candidates.forEach` of
`processLayersForPanel`, acting on one shape element's tag and attributes.
Returns `none` when the element is marked for removal.  Groups (`g`) are
skipped by the caller before this runs. -/
def transformShapeAttrs (styleMap : StyleMap) (layers : Option (List LayerConfig))
    (tag : String) (attrs0 : Attrs) : Option Attrs :=
  let colors := getElementColorsA attrs0 styleMap
  let attrs := removeAttr (removeAttr attrs0 "class") "style"
  match layers with
  | none =>
    -- passthrough: inline the resolved values, no filtering
    let a1 := match colors.fill with
      | some f => if f.isEmpty then attrs else setAttr attrs "fill" f
      | none => attrs
    let a2 := match colors.stroke with
      | some s => if s.isEmpty then a1 else setAttr a1 "stroke" s
      | none => a1
    let a3 := match colors.strokeWidth with
      | some w => if w.isEmpty then a2 else setAttr a2 "stroke-width" w
      | none => a2
    some a3
  | some ls =>
    let hasFill := visibleColor colors.fill
    let hasStroke := visibleColor colors.stroke
    let primary0 : Option String := if hasFill then colors.fill else none
    let primary1 : Option String :=
      if hasStroke then (if primary0.isNone then colors.stroke else primary0) else primary0
    match primary1 with
    | none => some attrs
    | some primaryColor =>
      let firstTry := findLayerConfig primaryColor ls
      let retried : Option LayerConfig × String :=
        match firstTry with
        | some l => (some l, primaryColor)
        | none =>
          if hasStroke ∧ visibleColor colors.stroke then
            match colors.stroke with
            | some sc =>
              (match findLayerConfig sc ls with
               | some l => (some l, sc)
               | none => (none, primaryColor))
            | none => (none, primaryColor)
          else (none, primaryColor)
      match retried.1 with
      | none => none
      | some layerConfig =>
        if layerConfig.visibility = .hidden then none
        else
          let targetColor :=
            if truthy layerConfig.outputColor then layerConfig.outputColor.getD ""
            else if layerConfig.visibility = .showBlack then "#000000"
            else normalizeColorToHex retried.2
          match layerConfig.renderMode with
          | .fillMode =>
            let a1 :=
              if hasFill then setAttr attrs "fill" targetColor
              else if hasStroke then
                let canFill := tag = "circle" ∨ tag = "ellipse" ∨ tag = "rect" ∨ tag = "polygon" ∨
                  (tag = "path" ∧ isClosedPath (getAttr attrs "d"))
                if canFill then setAttr attrs "fill" targetColor
                else
                  setAttr (setAttr (setAttr attrs "fill" "none") "stroke" targetColor)
                    "stroke-width" (orDefault colors.strokeWidth "0.5")
              else attrs
            -- the unconditional trailing `el.setAttribute('stroke', 'none')`
            some (setAttr a1 "stroke" "none")
          | .strokeMode =>
            if hasFill then
              some (setAttr (setAttr (setAttr attrs "fill" "none") "stroke" targetColor)
                "stroke-width" (orDefault colors.strokeWidth "1"))
            else
              some (setAttr (setAttr (setAttr attrs "fill" "none") "stroke" targetColor)
                "stroke-width" (orDefault colors.strokeWidth "0.5"))

-- The recursion of `candidates.forEach` over the document: every element
-- with a shape tag is transformed (possibly removed with its subtree);
-- groups and all other containers are kept and recursed into.  The static
-- candidate snapshot with deferred removal is equivalent to this single
-- recursive pass because each element's decision depends only on its own
-- attributes.
mutual
def processNode (styleMap : StyleMap) (layers : Option (List LayerConfig)) : XNode → Option XNode
  | .elem t a ch =>
    if isShapeTag t then
      match transformShapeAttrs styleMap layers t a with
      | none => none
      | some a' => some (.elem t a' (processChildren styleMap layers ch))
    else some (.elem t a (processChildren styleMap layers ch))

def processChildren (styleMap : StyleMap) (layers : Option (List LayerConfig)) :
    List XNode → List XNode
  | [] => []
  | n :: rest =>
    match processNode styleMap layers n with
    | none => processChildren styleMap layers rest
    | some n' => n' :: processChildren styleMap layers rest
end

-- Shape-descendant test used by the empty-group cleanup
-- (`g.querySelector('path, rect, ...')` searches all descendants).
mutual
def subtreeHasShape : XNode → Bool
  | .elem t _ ch => isShapeTag t || forestHasShape ch

def forestHasShape : List XNode → Bool
  | [] => false
  | n :: rest => subtreeHasShape n || forestHasShape rest
end

-- Empty-group cleanup: every `g` without a shape descendant is removed
-- (with its subtree); the snapshot iteration of the source is equivalent
-- because removing a shape-free `g` never changes another `g`'s
-- shape-descendant status.
mutual
def cleanupNode : XNode → Option XNode
  | .elem t a ch =>
    if t = "g" ∧ forestHasShape ch = false then none
    else some (.elem t a (cleanupForest ch))

def cleanupForest : List XNode → List XNode
  | [] => []
  | n :: rest =>
    match cleanupNode n with
    | none => cleanupForest rest
    | some n' => n' :: cleanupForest rest
end

-- Removal of the first `style` element in document order
-- (`imported.querySelector('style')?.remove()`); the second component
-- reports whether one was found.
mutual
def removeFirstStyleN : XNode → Option XNode × Bool
  | .elem t a ch =>
    if t = "style" then (none, true)
    else
      match removeFirstStyleF ch with
      | (ch', removed) => (some (.elem t a ch'), removed)

def removeFirstStyleF : List XNode → List XNode × Bool
  | [] => ([], false)
  | n :: rest =>
    match removeFirstStyleN n with
    | (none, _) => (rest, true)
    | (some n', true) => (n' :: rest, true)
    | (some n', false) =>
      match removeFirstStyleF rest with
      | (rest', removed) => (n' :: rest', removed)
end

-- Pre-order collection of the elements matching a tag list
-- (`querySelectorAll` document order).
mutual
def collectTagsN (tags : List String) : XNode → List XNode
  | .elem t a ch =>
    (if tags.contains t then [XNode.elem t a ch] else []) ++ collectTagsF tags ch

def collectTagsF (tags : List String) : List XNode → List XNode
  | [] => []
  | n :: rest => collectTagsN tags n ++ collectTagsF tags rest
end

-- Pre-order collection with global element indices, modelling object
-- identity for deferred element removal.  The index counter advances over
-- every element.
mutual
def collectIdxN (tags : List String) (i : ℕ) : XNode → List (ℕ × XNode) × ℕ
  | .elem t a ch =>
    match collectIdxF tags (i + 1) ch with
    | (found, i') =>
      ((if tags.contains t then [(i, XNode.elem t a ch)] else []) ++ found, i')

def collectIdxF (tags : List String) (i : ℕ) : List XNode → List (ℕ × XNode) × ℕ
  | [] => ([], i)
  | n :: rest =>
    match collectIdxN tags i n with
    | (found, i') =>
      match collectIdxF tags i' rest with
      | (found', i'') => (found ++ found', i'')
end

-- Removal of the elements whose global pre-order index is listed
-- (`el.remove()` on previously collected elements): the node and its
-- subtree disappear; indices keep counting through removed subtrees.
mutual
def removeIdsN (ids : List ℕ) (i : ℕ) : XNode → Option XNode × ℕ
  | .elem t a ch =>
    match removeIdsF ids (i + 1) ch with
    | (ch', i') => (if ids.contains i then none else some (.elem t a ch'), i')

def removeIdsF (ids : List ℕ) (i : ℕ) : List XNode → List XNode × ℕ
  | [] => ([], i)
  | n :: rest =>
    match removeIdsN ids i n with
    | (n?, i') =>
      match removeIdsF ids i' rest with
      | (rest', i'') =>
        (match n? with
         | none => rest'
         | some n' => n' :: rest', i'')
end

-- Rewriting of `d` attributes of `path` elements by their pre-order index
-- among paths (the subpath-excision step sets a new `d` per affected
-- path object).
mutual
def rewritePathsN (newDs : List (ℕ × String)) (i : ℕ) : XNode → XNode × ℕ
  | .elem t a ch =>
    if t = "path" then
      match rewritePathsF newDs (i + 1) ch with
      | (ch', i') =>
        (match List.lookup i newDs with
         | some nd => .elem t (setAttr a "d" nd) ch'
         | none => .elem t a ch', i')
    else
      match rewritePathsF newDs i ch with
      | (ch', i') => (.elem t a ch', i')

def rewritePathsF (newDs : List (ℕ × String)) (i : ℕ) : List XNode → List XNode × ℕ
  | [] => ([], i)
  | n :: rest =>
    match rewritePathsN newDs i n with
    | (n', i') =>
      match rewritePathsF newDs i' rest with
      | (rest', i'') => (n' :: rest', i'')
end

/-! ## Numbers, viewBox parsing, and geometry containers -/

structure Rect where
  x : ℚ
  y : ℚ
  width : ℚ
  height : ℚ

def takeDigits (l : List Char) : List Char :=
  l.takeWhile isDigitChar

def decValue (intDigits fracDigits : List Char) : ℚ :=
  (digitsToNat intDigits : ℚ) + (digitsToNat fracDigits : ℚ) / (10 : ℚ) ^ fracDigits.length

/-- Parse a decimal number `digits[.digits]` or `.digits` from the front;
returns the value and the remainder. -/
def parseDecFrom (l : List Char) : Option (ℚ × List Char) :=
  let ip := takeDigits l
  match l.drop ip.length with
  | '.' :: r2 =>
    let fp := takeDigits r2
    if ip.isEmpty ∧ fp.isEmpty then none
    else some (decValue ip fp, r2.drop fp.length)
  | r1 => if ip.isEmpty then none else some (decValue ip [], r1)

def parseSignedFrom (l : List Char) : Option (ℚ × List Char) :=
  match l with
  | '+' :: r => parseDecFrom r
  | '-' :: r => (parseDecFrom r).map (fun p => (-p.1, p.2))
  | _ => parseDecFrom l

/-- JavaScript `Number(s)` on the plain-decimal subset (no exponents or hex
are produced by the inputs under study): trimmed empty is 0, otherwise the
whole string must be a signed decimal; `none` models NaN. -/
def jsNumber (s : List Char) : Option ℚ :=
  let t := jsTrim s
  if t.isEmpty then some 0
  else
    match parseSignedFrom t with
    | some (v, []) => some v
    | _ => none

/-- JavaScript `parseFloat` on the same subset: leading whitespace skipped,
longest valid prefix; `none` models NaN. -/
def jsParseFloat (s : List Char) : Option ℚ :=
  match parseSignedFrom (s.dropWhile isJsWhitespace) with
  | some (v, _) => some v
  | none => none

-- Splitting on runs of a separator class (`split(/[\s,]+/)` for the
-- viewBox attribute), keeping empty tokens at leading/trailing separators.
mutual
def splitSepTok (p : Char → Bool) (acc : List Char) : List Char → List (List Char)
  | [] => [acc.reverse]
  | c :: rest =>
    if p c then acc.reverse :: splitSepSep p rest
    else splitSepTok p (c :: acc) rest

def splitSepSep (p : Char → Bool) : List Char → List (List Char)
  | [] => [[]]
  | c :: rest => if p c then splitSepSep p rest else splitSepTok p [c] rest
end

def jsSplitWsComma (l : List Char) : List (List Char) :=
  splitSepTok (fun c => isJsWhitespace c || c == ',') [] l

/-- Embedding of `getSvgViewBox`: a truthy 4-number `viewBox` attribute
with positive width and height; else positive numeric `width`/`height`
attributes (unit characters stripped) as `(0,0,w,h)`; else none. -/
def getSvgViewBox (a : Attrs) : Option Rect :=
  let fromVb : Option Rect :=
    match getAttr a "viewBox" with
    | none => none
    | some vbs =>
      if vbs.isEmpty then none
      else
        match (jsSplitWsComma vbs.data).map jsNumber with
        | [some x, some y, some w, some h] =>
          if 0 < w ∧ 0 < h then some ⟨x, y, w, h⟩ else none
        | _ => none
  match fromVb with
  | some r => some r
  | none =>
    let numeric := fun (s : String) =>
      if s.isEmpty then none
      else jsParseFloat (s.data.filter (fun c => isDigitChar c || c == '.' || c == '+' || c == '-'))
    match (getAttr a "width").bind numeric, (getAttr a "height").bind numeric with
    | some w, some h => if 0 < w ∧ 0 < h then some ⟨0, 0, w, h⟩ else none
    | _, _ => none

def natDigits (n : ℕ) : List Char :=
  Nat.toDigits 10 n

/-- JavaScript `String(x)` for rationals with a finite decimal expansion
(the only values the modelled code stringifies exactly); other rationals
fall back to a `num/den` rendering, marking the unmodelled float
approximation. -/
def numStr (q : ℚ) : String :=
  let sign : List Char := if q < 0 then ['-'] else []
  let aq : ℚ := |q|
  match (List.range 31).find? (fun k => (aq * (10 : ℚ) ^ k).den = 1) with
  | some k =>
    let scaled := (aq * (10 : ℚ) ^ k).num.toNat
    if k = 0 then ⟨sign ++ natDigits scaled⟩
    else
      let whole := scaled / 10 ^ k
      let frac := scaled % 10 ^ k
      let fracDigits := natDigits frac
      ⟨sign ++ natDigits whole ++ '.' :: (List.replicate (k - fracDigits.length) '0' ++ fracDigits)⟩
  | none => ⟨sign ++ natDigits aq.num.toNat ++ '/' :: natDigits aq.den⟩

/-! ## Ornament-hole heuristic (`removeOrnamentHoleIfFound` and helpers) -/

/-- Embedding of `splitPathIntoSubpaths`: trim, split before each `M`/`m`,
trim the segments, drop empties. -/
def splitMAux (cur : List Char) : List Char → List (List Char)
  | [] => [cur.reverse]
  | c :: rest =>
    if c = 'M' ∨ c = 'm' then cur.reverse :: splitMAux [c] rest
    else splitMAux (c :: cur) rest

def splitPathIntoSubpaths (d : String) : List String :=
  ((splitMAux [] (jsTrim d.data)).map (fun seg => (⟨jsTrim seg⟩ : String))).filter
    (fun s => !s.isEmpty)

/-- Stable insertion sort by a rational key, ascending: the stable
`sort((a, b) => a.score - b.score)` of the source. -/
def insertSorted {α : Type} (key : α → ℚ) (x : α) : List α → List α
  | [] => [x]
  | y :: ys => if key x ≤ key y then x :: y :: ys else y :: insertSorted key x ys

def sortByKey {α : Type} (key : α → ℚ) (l : List α) : List α :=
  l.foldr (insertSorted key) []

def insertDescNat (x : ℕ) : List ℕ → List ℕ
  | [] => [x]
  | y :: ys => if y ≤ x then x :: y :: ys else y :: insertDescNat x ys

def sortDescNat (l : List ℕ) : List ℕ :=
  l.foldr insertDescNat []

/-- Subpath hole candidates of one path (method 1): closed subpaths whose
measured bbox passes the size, aspect and position filters, scored with
weights 2.0/2.4/1.2/0.5.  Result entries are (path index, segment index,
score). -/
def holeCandidatesForPath (dBBox : String → Option Rect) (vb : Rect) (pathIdx : ℕ)
    (d : String) : List (ℕ × ℕ × ℚ) :=
  let segments := splitPathIntoSubpaths d
  if segments.length < 2 then []
  else
    segments.enum.filterMap (fun sis =>
      if !isClosedPath (some sis.2) then none
      else
        match dBBox sis.2 with
        | none => none
        | some bb =>
          let minDim := min vb.width vb.height
          let sr := max bb.width bb.height / minDim
          if sr < 0.02 ∨ 0.10 < sr then none
          else if bb.height = 0 then none
          else
            let aspect := bb.width / bb.height
            if aspect < 0.85 ∨ 1.18 < aspect then none
            else
              let cx := bb.x + bb.width / 2
              let cy := bb.y + bb.height / 2
              let dx := |cx - (vb.x + vb.width / 2)| / vb.width
              let dyTop := (cy - vb.y) / vb.height
              if 0.10 < dx then none
              else if dyTop < -0.05 ∨ 0.15 < dyTop then none
              else some (pathIdx, sis.1, dx * 2.0 + dyTop * 2.4 + |1 - aspect| * 1.2 + sr * 0.5))

/-- Method 1 (`removeOrnamentHoleFromPathSubpaths`): collect candidates
across all paths, take the 3 best scores, and excise those subpath
segments per affected path (removing by descending index), rewriting the
path data. -/
def removeOrnamentSubpaths (dBBox : String → Option Rect) (vb : Rect)
    (f : List XNode) : List XNode :=
  let paths := collectTagsF ["path"] f
  let allCandidates := paths.enum.flatMap (fun pip =>
    match getAttr pip.2.attrs "d" with
    | none => []
    | some d => if d.isEmpty then [] else holeCandidatesForPath dBBox vb pip.1 d)
  if allCandidates.isEmpty then f
  else
    let toRemove := (sortByKey (fun c => c.2.2) allCandidates).take 3
    let newDs := paths.enum.filterMap (fun pip =>
      let idxs := (toRemove.filter (fun c => c.1 = pip.1)).map (fun c => c.2.1)
      if idxs.isEmpty then none
      else
        match getAttr pip.2.attrs "d" with
        | none => none
        | some d =>
          if d.isEmpty then none
          else
            let segments := splitPathIntoSubpaths d
            if segments.length < 2 then none
            else some (pip.1,
              " ".intercalate ((sortDescNat idxs).foldl (fun segs idx => segs.eraseIdx idx) segments)))
    (rewritePathsF newDs 0 f).1

/-- Method 2 (standalone elements): scored with weights 2.0/2.2/1.2/0.6;
the two best candidates whose vertical center lies in the top half are
removed. -/
def removeStandaloneHoles (bbox : XNode → Option Rect) (vb : Rect)
    (f : List XNode) : List XNode :=
  let candidates := (collectIdxF ["circle", "ellipse", "path", "rect", "use", "polygon"] 0 f).1
  let scored := candidates.filterMap (fun p =>
    if p.2.tag = "text" then none
    else
      match bbox p.2 with
      | none => none
      | some bb =>
        let d := max bb.width bb.height
        if d ≤ 0 then none
        else
          let minDim := min vb.width vb.height
          let sr := d / minDim
          if sr < 0.02 ∨ 0.10 < sr then none
          else if bb.height = 0 then none
          else
            let aspect := bb.width / bb.height
            if aspect ≤ 0 then none
            else if aspect < 0.85 ∨ 1.18 < aspect then none
            else
              let cx := bb.x + bb.width / 2
              let cy := bb.y + bb.height / 2
              let dx := |cx - (vb.x + vb.width / 2)| / vb.width
              let dyTop := (cy - vb.y) / vb.height
              if 0.10 < dx then none
              else if dyTop < -0.05 ∨ 0.15 < dyTop then none
              else some (p.1, p.2, dx * 2.0 + dyTop * 2.2 + |1 - aspect| * 1.2 + sr * 0.6))
  let chosen := (sortByKey (fun s => s.2.2) scored).take 2
  let ids := chosen.filterMap (fun s =>
    match bbox s.2.1 with
    | none => none
    | some bb =>
      let dyTop := (bb.y + bb.height / 2 - vb.y) / vb.height
      if 0.5 < dyTop then none else some s.1)
  (removeIdsF ids 0 f).1

def removeOrnamentHoleIfFound (bbox : XNode → Option Rect) (dBBox : String → Option Rect)
    (vb : Rect) (f : List XNode) : List XNode :=
  removeStandaloneHoles bbox vb (removeOrnamentSubpaths dBBox vb f)

/-- The per-path test of `coverOrnamentHoleWithBackground`: a truthy `d`, a
visible inline stroke, a measured bbox reaching into the top 15% of the
viewbox and spanning at least 70% of its min dimension. -/
def coverQualifies (bbox : XNode → Option Rect) (vb : Rect) (p : XNode) : Bool :=
  match getAttr p.attrs "d" with
  | none => false
  | some d =>
    if d.isEmpty then false
    else
      match getAttr p.attrs "stroke" with
      | none => false
      | some st =>
        if st.isEmpty || jsToLower st == "none" then false
        else
          match bbox p with
          | none => false
          | some bb =>
            if vb.y + vb.height * 0.15 < bb.y then false
            else !(max bb.width bb.height / min vb.width vb.height < 0.7)

/-- The synthesized hole-cover circle: radius 5% of the min viewbox
dimension, centered 6% of the height from the top, filled with the
background color. -/
def coverCircleNode (cx cy r : ℚ) : XNode :=
  .elem "circle" [("cx", numStr cx), ("cy", numStr cy), ("r", numStr r),
    ("fill", "#ffffff"), ("stroke", "none"), ("data-hole-cover", "true")] []

/-- Embedding of `coverOrnamentHoleWithBackground`. -/
def coverOrnamentHole (bbox : XNode → Option Rect) (vb : Rect) (f : List XNode) : List XNode :=
  if (collectTagsF ["path"] f).any (coverQualifies bbox vb) then
    f ++ [coverCircleNode (vb.x + vb.width / 2) (vb.y + vb.height * 0.06)
      (min vb.width vb.height * 0.05)]
  else f

/-! ## Round backer (`detectCutLineBbox`, `addRoundBackerOutline`) -/

/-- The stroke-resolution shared by the cut-line passes: class rules, then
the inline style declaration (trimmed), then the `stroke` attribute as a
fallback when the value so far is falsy. -/
def resolveStrokeLike (styleMap : StyleMap) (a : Attrs) : Option String :=
  let fromClass : Option String :=
    match getAttr a "class" with
    | none => none
    | some classAttr =>
      if classAttr.isEmpty then none
      else
        (jsSplitWs classAttr.data).foldl (fun st cls =>
          match List.lookup (⟨cls⟩ : String) styleMap with
          | none => st
          | some rule => if truthy rule.stroke then rule.stroke else st) none
  let fromStyle : Option String :=
    match getAttr a "style" with
    | none => fromClass
    | some styleAttr =>
      if styleAttr.isEmpty then fromClass
      else
        match extractDecl true "stroke" styleAttr with
        | some cap => some (jsTrimS cap)
        | none => fromClass
  if truthy fromStyle then fromStyle else getAttr a "stroke"

/-- Embedding of `detectCutLineBbox`: among circle/ellipse/path elements
whose resolved stroke matches the cut color, the bbox with the largest
width (strictly-greater replacement). -/
def detectCutLineBbox (bbox : XNode → Option Rect) (styleMap : StyleMap)
    (f : List XNode) : Option Rect :=
  (collectTagsF ["circle", "ellipse", "path"] f).foldl (fun best el =>
    let eff := resolveStrokeLike styleMap el.attrs
    if !truthy eff then best
    else if !colorsMatch (normalizeColorToHex (eff.getD "")) "#0000ff" then best
    else
      match bbox el with
      | none => best
      | some bb =>
        if bb.width ≤ 0 then best
        else
          match best with
          | none => some bb
          | some b0 => if b0.width < bb.width then some bb else best) none

/-- The in-function cut-line search of `addRoundBackerOutline` (used when
no pre-calculated bbox is given), also remembering the element for
removal. -/
def searchCutLine (bbox : XNode → Option Rect) (styleMap : StyleMap)
    (f : List XNode) : Option (Rect × ℕ) :=
  ((collectIdxF ["circle", "ellipse", "path"] 0 f).1).foldl (fun best p =>
    let eff := resolveStrokeLike styleMap p.2.attrs
    if !truthy eff then best
    else if !colorsMatch (normalizeColorToHex (eff.getD "")) "#0000ff" then best
    else
      match bbox p.2 with
      | none => best
      | some bb =>
        if bb.width ≤ 0 then best
        else
          match best with
          | none => some (bb, p.1)
          | some b0 => if b0.1.width < bb.width then some (bb, p.1) else best) none

/-- Removal of every remaining circle/ellipse/path/line whose resolved
stroke matches the cut color. -/
def removeBlueStroked (styleMap : StyleMap) (f : List XNode) : List XNode :=
  let ids := ((collectIdxF ["circle", "ellipse", "path", "line"] 0 f).1).filterMap (fun p =>
    let eff := resolveStrokeLike styleMap p.2.attrs
    if truthy eff ∧ colorsMatch (normalizeColorToHex (eff.getD "")) "#0000ff" then some p.1
    else none)
  (removeIdsF ids 0 f).1

/-- The synthesized round-backer circle. -/
def backerCircleNode (cx cy r strokeWidth : ℚ) : XNode :=
  .elem "circle" [("cx", numStr cx), ("cy", numStr cy), ("r", numStr r),
    ("fill", "none"), ("stroke", "#000000"), ("stroke-width", numStr strokeWidth)] []

/-- Embedding of `addRoundBackerOutline`. -/
def addRoundBackerOutline (bbox : XNode → Option Rect) (vb : Rect) (styleMap : StyleMap)
    (strokeWidth : ℚ) (preCalculatedBbox : Option Rect) (f : List XNode) : List XNode :=
  let found : Option Rect × Option ℕ :=
    match preCalculatedBbox with
    | some b => (some b, none)
    | none =>
      match searchCutLine bbox styleMap f with
      | some bi => (some bi.1, some bi.2)
      | none => (none, none)
  match found.1 with
  | none =>
    let diameter := min vb.width vb.height * 0.95
    f ++ [backerCircleNode (vb.x + vb.width / 2) (vb.y + vb.height / 2) (diameter / 2) strokeWidth]
  | some cutBbox =>
    let diameter := cutBbox.width
    let cx := cutBbox.x + cutBbox.width / 2
    let cy := cutBbox.y + cutBbox.height - diameter / 2
    let f1 := match found.2 with
      | some i => (removeIdsF [i] 0 f).1
      | none => f
    let f2 := removeBlueStroked styleMap f1
    f2 ++ [backerCircleNode cx cy (diameter / 2) strokeWidth]

/-! ## The full layer-processing pipeline (`processLayersForPanel`) -/

structure ProcessingOptions where
  removeOrnamentHole : Bool := false
  addRoundBacker : Bool := false
  roundBackerStrokeWidth : ℚ := 0.5

/-- The input of `processLayersForPanel`: either markup the DOM parser
rejects, or markup without an `svg` root, or a parsed document (style map
from `parseSvgStyleBlock`, root attributes, root children). -/
inductive SvgInput where
  | parseFailure (svgText : String)
  | missingRoot (svgText : String)
  | doc (styleMap : StyleMap) (rootAttrs : Attrs) (children : List XNode)

/-- The result: the input text returned unchanged on the error branches, or
the processed root children (`imported.innerHTML`). -/
inductive ProcResult where
  | unchanged (svgText : String)
  | processed (children : List XNode)

/-- All pipeline stages before the final hole-cover fallback: ornament-hole
removal (given a viewbox), cut-line detection, removal of the first style
element, the per-element layer pass, empty-group cleanup in rule mode, and
the round backer. -/
def processedBeforeCover (bbox : XNode → Option Rect) (dBBox : String → Option Rect)
    (styleMap : StyleMap) (rootAttrs : Attrs) (children : List XNode)
    (layers : Option (List LayerConfig)) (options : ProcessingOptions) : List XNode :=
  let viewBox := getSvgViewBox rootAttrs
  let ch1 := match viewBox with
    | some vb =>
      if options.removeOrnamentHole then removeOrnamentHoleIfFound bbox dBBox vb children
      else children
    | none => children
  let savedCutLineBbox : Option Rect := match viewBox with
    | some _ => if options.addRoundBacker then detectCutLineBbox bbox styleMap ch1 else none
    | none => none
  let ch2 := (removeFirstStyleF ch1).1
  let ch3 := processChildren styleMap layers ch2
  let ch4 := match layers with
    | some _ => cleanupForest ch3
    | none => ch3
  match viewBox with
  | some vb =>
    if options.addRoundBacker then
      addRoundBackerOutline bbox vb styleMap options.roundBackerStrokeWidth savedCutLineBbox ch4
    else ch4
  | none => ch4

/-- Embedding of `processLayersForPanel`.  The two error branches return
the input text unchanged; otherwise the pipeline runs and the hole-cover
fallback is applied only when ornament-hole removal is on, the round
backer is off, and a viewbox is available. -/
def processLayersForPanel (bbox : XNode → Option Rect) (dBBox : String → Option Rect)
    (input : SvgInput) (layers : Option (List LayerConfig))
    (options : ProcessingOptions) : ProcResult :=
  match input with
  | .parseFailure s => .unchanged s
  | .missingRoot s => .unchanged s
  | .doc styleMap rootAttrs children =>
    let ch5 := processedBeforeCover bbox dBBox styleMap rootAttrs children layers options
    match getSvgViewBox rootAttrs with
    | some vb =>
      if options.removeOrnamentHole ∧ options.addRoundBacker = false then
        .processed (coverOrnamentHole bbox vb ch5)
      else .processed ch5
    | none => .processed ch5

/-! ## Derived predicates and spec-side definitions -/

-- Node/forest size, for strong induction over the nested tree type.
mutual
def xsizeN : XNode → ℕ
  | .elem _ _ ch => 1 + xsizeF ch

def xsizeF : List XNode → ℕ
  | [] => 0
  | n :: rest => xsizeN n + xsizeF rest
end

-- Skeleton of a tree: tags and shape, attributes erased.  Preservation of
-- the skeleton is the formal sense of "removes no node".
mutual
def skeletonN : XNode → XNode
  | .elem t _ ch => .elem t [] (skeletonF ch)

def skeletonF : List XNode → List XNode
  | [] => []
  | n :: rest => skeletonN n :: skeletonF rest
end

-- Number of shape-tagged nodes in a forest.
mutual
def shapeCountN : XNode → ℕ
  | .elem t _ ch => (if isShapeTag t then 1 else 0) + shapeCountF ch

def shapeCountF : List XNode → ℕ
  | [] => 0
  | n :: rest => shapeCountN n + shapeCountF rest
end

-- Number of style-tagged nodes in a forest.
mutual
def styleCountN : XNode → ℕ
  | .elem t _ ch => (if t = "style" then 1 else 0) + styleCountF ch

def styleCountF : List XNode → ℕ
  | [] => 0
  | n :: rest => styleCountN n + styleCountF rest
end

/-- The resolution an element gets when it carries no class and no style
attribute: direct attributes only (truthy ones). -/
def directColors (a : Attrs) : ResolvedColors :=
  { fill := if truthy (getAttr a "fill") then getAttr a "fill" else none
    stroke := if truthy (getAttr a "stroke") then getAttr a "stroke" else none
    strokeWidth := if truthy (getAttr a "stroke-width") then getAttr a "stroke-width" else none }

/-- Well-formed, already-inlined attributes: no class or style scoping and
unique attribute names (as the DOM guarantees). -/
def attrsClean (a : Attrs) : Prop :=
  getAttr a "class" = none ∧ getAttr a "style" = none ∧ (a.map Prod.fst).Nodup

-- Already-inlined markup: every element's attributes are clean.
mutual
def nodeClean : XNode → Prop
  | .elem _ a ch => attrsClean a ∧ forestClean ch

def forestClean : List XNode → Prop
  | [] => True
  | n :: rest => nodeClean n ∧ forestClean rest
end

-- A tree is stable under the rule-mode pass with an empty style map when
-- every shape node's transform reproduces its own attributes.
mutual
def stableNode (ls : List LayerConfig) : XNode → Prop
  | .elem t a ch =>
    (isShapeTag t = true → transformShapeAttrs [] (some ls) t a = some a) ∧ stableForest ls ch

def stableForest (ls : List LayerConfig) : List XNode → Prop
  | [] => True
  | n :: rest => stableNode ls n ∧ stableForest ls rest
end

/-- A rule reproduces its own output: it is hidden, or it carries a truthy
output color (other than a case variant of `none`) that `findLayerConfig`
resolves back to a non-hidden rule of the same render mode and the same
output color. -/
def ruleSelfReproducing (ls : List LayerConfig) (l : LayerConfig) : Bool :=
  decide (l.visibility = .hidden) ||
    (match l.outputColor with
     | none => false
     | some oc =>
       !oc.isEmpty && !(jsToLower oc == "none") &&
         (match findLayerConfig oc ls with
          | none => false
          | some l' =>
            decide (¬l'.visibility = .hidden) && decide (l'.renderMode = l.renderMode) &&
              (l'.outputColor == some oc)))

def rulesSelfReproducing (ls : List LayerConfig) : Bool :=
  ls.all (ruleSelfReproducing ls)

-- The amended behavior of rule mode with an empty rule list, following the
-- spec's (corrected) words: drop every shape node whose resolved fill or
-- stroke is visible, keep the others with class/style scoping stripped.
mutual
def keepColorlessN (sm : StyleMap) : XNode → Option XNode
  | .elem t a ch =>
    if isShapeTag t then
      let colors := getElementColorsA a sm
      if visibleColor colors.fill || visibleColor colors.stroke then none
      else some (.elem t (removeAttr (removeAttr a "class") "style") (keepColorlessF sm ch))
    else some (.elem t a (keepColorlessF sm ch))

def keepColorlessF (sm : StyleMap) : List XNode → List XNode
  | [] => []
  | n :: rest =>
    match keepColorlessN sm n with
    | none => keepColorlessF sm rest
    | some n' => n' :: keepColorlessF sm rest
end

/-- Whether a forest contains a synthesized hole-cover circle. -/
def hasHoleCover (f : List XNode) : Bool :=
  (collectTagsF ["circle"] f).any (fun n => getAttr n.attrs "data-hole-cover" == some "true")

def resultHasHoleCover : ProcResult → Bool
  | .unchanged _ => false
  | .processed f => hasHoleCover f

/-! ## Concrete fixtures for witnesses and counterexamples -/

def noBBox : XNode → Option Rect := fun _ => none

def noDBBox : String → Option Rect := fun _ => none

/-- The `standard` preset of `LAYER_PRESETS`. -/
def standardPreset : List LayerConfig :=
  [⟨"#0000ff", .showColor, .strokeMode, some "#0000ff"⟩,
   ⟨"#00c100", .showColor, .fillMode, some "#00c100"⟩,
   ⟨"#000000", .showColor, .strokeMode, some "#000000"⟩,
   ⟨"#ff0000", .showColor, .strokeMode, some "#ff0000"⟩]

/-- An open stroked path (no close-path command). -/
def openStrokePath : XNode :=
  .elem "path" [("d", "M0 0 L10 10"), ("stroke", "#0000ff")] []

/-- A fill-mode rule matching the open path's stroke color. -/
def blueFillRule : LayerConfig :=
  ⟨"#0000ff", .showColor, .fillMode, none⟩

/-- What the pipeline actually produces for `openStrokePath` under
`blueFillRule`: the kept-as-stroke attributes are overwritten by the
trailing `setAttribute('stroke', 'none')`. -/
def bugOutputPath : XNode :=
  .elem "path" [("d", "M0 0 L10 10"), ("stroke", "none"), ("fill", "none"),
    ("stroke-width", "0.5")] []

/-- A shape node with no resolved color at all. -/
def colorlessPath : XNode :=
  .elem "path" [("d", "M0 0h5")] []

/-- A rule whose output color matches no rule. -/
def outColorRule : LayerConfig :=
  ⟨"#0000ff", .showColor, .fillMode, some "#123456"⟩

def closedBluePath : XNode :=
  .elem "path" [("d", "M0 0h5v5z"), ("fill", "#0000ff")] []

/-- What one pass under `outColorRule` makes of `closedBluePath`: the fill
painted with the rule's output color `#123456`. -/
def paintedBluePath : XNode :=
  .elem "path" [("d", "M0 0h5v5z"), ("fill", "#123456"), ("stroke", "none")] []

/-- A path whose class-resolved fill (`none`) veils a direct fill
attribute. -/
def veiledPath : XNode :=
  .elem "path" [("class", "a"), ("d", "M0 0h5v5z"), ("fill", "#0000ff")] []

def veilMap : StyleMap :=
  [("a", { fill := some "none" })]

def greenClosedPath : XNode :=
  .elem "path" [("d", "M0 0h5v5z"), ("fill", "#00c100")] []

/-- Root attributes with a parsable viewBox. -/
def vbAttrs : Attrs :=
  [("viewBox", "0 0 100 100")]

/-- A large stroked path reaching the top of the viewbox. -/
def bigStrokedPath : XNode :=
  .elem "path" [("d", "M0 0 L80 80"), ("stroke", "#000000")] []

/-- A bbox oracle measuring any path as the 80×80 box at the origin. -/
def bigPathBBox : XNode → Option Rect :=
  fun n => if n.tag == "path" then some ⟨0, 0, 80, 80⟩ else none

-- THEOREMS

/-- Claim C10: when the input markup fails DOM parsing or lacks an svg
root element, processLayersForPanel returns the input string unchanged
(and, being total, never throws), for every rule list and every
combination of processing options. -/
theorem process_error_branch_unchanged (s : String) (bbox : XNode → Option Rect)
    (dBBox : String → Option Rect) (layers : Option (List LayerConfig))
    (options : ProcessingOptions) :
    processLayersForPanel bbox dBBox (.parseFailure s) layers options = .unchanged s ∧
    processLayersForPanel bbox dBBox (.missingRoot s) layers options = .unchanged s :=
  ⟨rfl, rfl⟩

/-- Claim C1 (code bug): in rule mode with a matched fill-mode rule, a
stroked, fill-less open path is NOT kept as a stroke: the unconditional
trailing setAttribute of stroke to none overwrites the just-set stroke, so
the element ends with both fill and stroke equal to none (invisible),
contradicting the code's own "Keep as stroke for open paths" comment. -/
theorem fillmode_open_path_loses_stroke :
    processLayersForPanel noBBox noDBBox (.doc [] [] [openStrokePath]) (some [blueFillRule])
        {} = .processed [bugOutputPath] ∧
    getAttr bugOutputPath.attrs "stroke" = some "none" ∧
    getAttr bugOutputPath.attrs "fill" = some "none" :=
  ⟨rfl, rfl, rfl⟩

/-- Claim C2 (counterexample): with settings (0, 0, 10, 10, 0) both cols
and rows are -2, yet capacityPerPanel is 4, not 0; with settings
(0, 40, 10, 10, 0) the capacity (0) differs from cols*rows (-4). -/
theorem grid_capacity_claim_false :
    ((computeGridLayout ⟨0, 0, 10, 10, 0⟩).cols ≤ 0 ∧
      (computeGridLayout ⟨0, 0, 10, 10, 0⟩).capacityPerPanel ≠ 0) ∧
    (computeGridLayout ⟨0, 40, 10, 10, 0⟩).capacityPerPanel ≠
      (computeGridLayout ⟨0, 40, 10, 10, 0⟩).cols * (computeGridLayout ⟨0, 40, 10, 10, 0⟩).rows := by
  norm_num [computeGridLayout]

/-- Claim C2 (amended): for every input, capacityPerPanel equals
max(0, cols*rows); in particular it is zero exactly when cols*rows is
non-positive (so a non-positive cols or rows forces zero capacity only
when the product is non-positive; two negative factors give a positive
capacity). -/
theorem grid_capacity_amended (s : PanelLayoutSettings) :
    (computeGridLayout s).capacityPerPanel =
      max 0 ((computeGridLayout s).cols * (computeGridLayout s).rows) ∧
    ((computeGridLayout s).capacityPerPanel = 0 ↔
      (computeGridLayout s).cols * (computeGridLayout s).rows ≤ 0) := by
  constructor
  · rfl
  · simp only [computeGridLayout]
    omega

/-- Claim C7 (counterexample): with settings (0, 0, 10, 10, 0) the capacity
is 4 (cols = rows = -2), so 3 items yield one panel document, but that
panel contains no items at all (there are no placements), not the
3-element slice the claim asserts. -/
theorem panel_slices_claim_false :
    (computeGridLayout ⟨0, 0, 10, 10, 0⟩).capacityPerPanel = 4 ∧
    buildPanelItems [0, 1, 2] ⟨0, 0, 10, 10, 0⟩ = [([] : List ℕ)] ∧
    panelSliceSpec [0, 1, 2] 4 0 = [0, 1, 2] := by
  refine ⟨?_, ?_, ?_⟩
  · norm_num [computeGridLayout]
  · norm_num [buildPanelItems, computeGridLayout, computePanelCount]
    decide
  · decide

/-- Claim C7 (amended): buildPanelSvgs emits exactly
panelCount(n, capacity) panel documents for every input; and whenever the
grid has positive cols and rows (so that placements fill the capacity),
panel idx contains exactly the items of the slice
[idx*capacity, min(n, (idx+1)*capacity)). -/
theorem panel_slices_amended {α : Type} (selected : List α) (s : PanelLayoutSettings) :
    (buildPanelItems selected s).length =
      computePanelCount selected.length (computeGridLayout s).capacityPerPanel ∧
    (0 < (computeGridLayout s).cols → 0 < (computeGridLayout s).rows →
      buildPanelItems selected s =
        (List.range (computePanelCount selected.length
          (computeGridLayout s).capacityPerPanel)).map
          (panelSliceSpec selected (computeGridLayout s).capacityPerPanel.toNat)) := by
  constructor
  · simp [buildPanelItems]
  · intro hc hr
    have hdef : (computeGridLayout s).capacityPerPanel =
        max 0 ((computeGridLayout s).cols * (computeGridLayout s).rows) := rfl
    have hcap : (computeGridLayout s).capacityPerPanel =
        (computeGridLayout s).cols * (computeGridLayout s).rows := by
      rw [hdef]
      exact max_eq_right (mul_pos hc hr).le
    have hcapn : (computeGridLayout s).capacityPerPanel.toNat =
        (computeGridLayout s).cols.toNat * (computeGridLayout s).rows.toNat := by
      rw [hcap]
      rcases Int.eq_ofNat_of_zero_le hc.le with ⟨m, hm⟩
      rcases Int.eq_ofNat_of_zero_le hr.le with ⟨n, hn⟩
      rw [hm, hn, ← Int.natCast_mul, Int.toNat_natCast, Int.toNat_natCast, Int.toNat_natCast]
    have hplen : (computeGridLayout s).placements.length =
        (computeGridLayout s).capacityPerPanel.toNat := by
      have h0 : (computeGridLayout s).placements.length =
          (computeGridLayout s).rows.toNat * (computeGridLayout s).cols.toNat := by
        show (computeGridLayout s).placements.length = _
        simp only [computeGridLayout] at hc hr ⊢
        rw [if_pos ⟨hc, hr⟩, List.length_flatMap]
        simp [Function.comp_def, Nat.mul_comm]
      rw [h0, hcapn, Nat.mul_comm]
    simp only [buildPanelItems]
    refine List.map_congr_left ?_
    intro idx _
    have hle : (min selected.length
          (idx * (computeGridLayout s).capacityPerPanel.toNat +
            (computeGridLayout s).capacityPerPanel.toNat) -
          idx * (computeGridLayout s).capacityPerPanel.toNat) ≤
        (computeGridLayout s).placements.length := by
      rw [hplen]
      omega
    rw [List.take_take, Nat.min_eq_right hle]
    unfold panelSliceSpec
    rw [Nat.succ_mul]

/-- Claim C7 (witness): 300x300 panels with 60mm cells give capacity 25;
27 items produce 2 panels, the slices holding 25 and 2 items. -/
theorem panel_slices_witness :
    0 < (computeGridLayout ⟨300, 300, 60, 0, 0⟩).cols ∧
    0 < (computeGridLayout ⟨300, 300, 60, 0, 0⟩).rows ∧
    (computeGridLayout ⟨300, 300, 60, 0, 0⟩).capacityPerPanel = 25 ∧
    computePanelCount 27 25 = 2 ∧
    buildPanelItems (List.range 27) ⟨300, 300, 60, 0, 0⟩ =
      (List.range (computePanelCount (List.range 27).length
        (computeGridLayout ⟨300, 300, 60, 0, 0⟩).capacityPerPanel)).map
        (panelSliceSpec (List.range 27)
          (computeGridLayout ⟨300, 300, 60, 0, 0⟩).capacityPerPanel.toNat) ∧
    (panelSliceSpec (List.range 27) 25 0).length = 25 ∧
    (panelSliceSpec (List.range 27) 25 1).length = 2 := by
  have hc : 0 < (computeGridLayout ⟨300, 300, 60, 0, 0⟩).cols := by
    norm_num [computeGridLayout]
  have hr : 0 < (computeGridLayout ⟨300, 300, 60, 0, 0⟩).rows := by
    norm_num [computeGridLayout]
  refine ⟨hc, hr, ?_, ?_, (panel_slices_amended (List.range 27) ⟨300, 300, 60, 0, 0⟩).2 hc hr,
    ?_, ?_⟩
  · norm_num [computeGridLayout]
  · decide
  · decide
  · decide

set_option maxRecDepth 4000 in
/-- For channel values below 256, the padded hex rendering has exactly two
lowercase hexadecimal characters. -/
theorem pad2_natToHex_facts : ∀ n < 256, (pad2 (natToHexChars n)).length = 2 ∧
    ((pad2 (natToHexChars n)).all isLowerHexDigit = true) := by decide

/-- Claim C8 (counterexample): an unsupported token is returned as-is, so
the normalization codomain is not restricted to canonical hex or none. -/
theorem normalize_codomain_claim_false :
    isCanonicalHexOrNone (normalizeColorToHexL "foo".data) = false := by decide

/-- Claim C8 (amended): tokens of the supported families map into the
codomain — 3-digit hex tokens (hex digits), the named set, and rgb(r,g,b)
forms with channels below 256; any other token is returned trimmed and
lower-cased unchanged (so e.g. "foo" is outside the codomain). -/
theorem normalize_codomain_amended :
    (∀ (t : String) (a b c : Char),
      trimLower t.data = ['#', a, b, c] →
      isLowerHexDigit a = true → isLowerHexDigit b = true → isLowerHexDigit c = true →
      isCanonicalHexOrNone (normalizeColorToHexL t.data) = true) ∧
    (∀ name ∈ namedColors.map Prod.fst,
      isCanonicalHexOrNone (normalizeColorToHexL name) = true) ∧
    (∀ (t : String) (r g b : ℕ),
      (trimLower t.data).head? ≠ some '#' →
      List.lookup (trimLower t.data) namedColors = none →
      findRgb (trimLower t.data) = some (r, g, b) →
      r < 256 → g < 256 → b < 256 →
      isCanonicalHexOrNone (normalizeColorToHexL t.data) = true) := by
  refine ⟨?_, ?_, ?_⟩
  · intro t a b c htrim ha hb hc
    simp only [normalizeColorToHexL, htrim]
    simp [isCanonicalHexOrNone, ha, hb, hc]
  · intro name hmem
    fin_cases hmem <;> decide
  · intro t r g b hhead hlook hrgb hr hg hb
    obtain ⟨lr, ar⟩ := pad2_natToHex_facts r hr
    obtain ⟨lg, ag⟩ := pad2_natToHex_facts g hg
    obtain ⟨lb, ab⟩ := pad2_natToHex_facts b hb
    simp only [normalizeColorToHexL]
    rw [if_neg hhead, hlook, hrgb]
    simp [isCanonicalHexOrNone, List.all_append, List.length_append, lr, lg, lb, ar, ag, ab]

/-- Claim C8 (witness): the three supported families at concrete tokens:
a 3-digit hex with mixed case, a named color, and an rgb form. -/
theorem normalize_codomain_witness :
    isCanonicalHexOrNone (normalizeColorToHexL "#AbC".data) = true ∧
    isCanonicalHexOrNone (normalizeColorToHexL "red".data) = true ∧
    isCanonicalHexOrNone (normalizeColorToHexL "rgb(12, 34, 255)".data) = true :=
  ⟨normalize_codomain_amended.1 "#AbC" 'a' 'b' 'c' (by decide) (by decide) (by decide) (by decide),
   normalize_codomain_amended.2.1 "red".data (by decide),
   normalize_codomain_amended.2.2 "rgb(12, 34, 255)" 12 34 255 (by decide) (by decide)
     (by decide) (by decide) (by decide) (by decide)⟩

/-- Structural induction over forests of the nested tree type, by strong
induction on size. -/
theorem forest_induction (P : List XNode → Prop) (hnil : P [])
    (hcons : ∀ t a ch rest, P ch → P rest → P (XNode.elem t a ch :: rest)) :
    ∀ f, P f := by
  have main : ∀ k f, xsizeF f ≤ k → P f := by
    intro k
    induction k with
    | zero =>
      intro f hf
      cases f with
      | nil => exact hnil
      | cons n rest =>
        cases n with
        | elem t a ch =>
          exfalso
          simp only [xsizeF, xsizeN] at hf
          omega
    | succ k ih =>
      intro f hf
      cases f with
      | nil => exact hnil
      | cons n rest =>
        cases n with
        | elem t a ch =>
          have h1 : xsizeF ch ≤ k := by
            simp only [xsizeF, xsizeN] at hf
            omega
          have h2 : xsizeF rest ≤ k := by
            simp only [xsizeF, xsizeN] at hf
            omega
          exact hcons t a ch rest (ih ch h1) (ih rest h2)
  intro f
  exact main (xsizeF f) f le_rfl

/-- Passthrough never marks an element for removal. -/
theorem transform_passthrough_some (sm : StyleMap) (t : String) (a : Attrs) :
    ∃ a', transformShapeAttrs sm none t a = some a' :=
  ⟨_, rfl⟩

/-- Passthrough preserves the document skeleton: no node is removed and no
structure changes, only attributes. -/
theorem processChildren_passthrough_skeleton (sm : StyleMap) :
    ∀ f, skeletonF (processChildren sm none f) = skeletonF f := by
  refine forest_induction _ rfl ?_
  intro t a ch rest ihch ihrest
  obtain ⟨a', ha'⟩ := transform_passthrough_some sm t a
  cases hsh : isShapeTag t
  · simp [processChildren, processNode, hsh, skeletonF, skeletonN, ihch, ihrest]
  · simp [processChildren, processNode, hsh, ha', skeletonF, skeletonN, ihch, ihrest]

theorem findLayerConfig_nil (c : String) : findLayerConfig c [] = none := by
  simp [findLayerConfig, ite_self]

/-- With an empty rule list the per-element transform drops exactly the
elements with a visible resolved color, keeping the rest with class/style
scoping stripped. -/
theorem transform_empty_rules (sm : StyleMap) (t : String) (a : Attrs) :
    transformShapeAttrs sm (some []) t a =
      (if visibleColor (getElementColorsA a sm).fill ||
          visibleColor (getElementColorsA a sm).stroke then none
       else some (removeAttr (removeAttr a "class") "style")) := by
  rcases hcf : (getElementColorsA a sm).fill with _ | sf <;>
    rcases hcs : (getElementColorsA a sm).stroke with _ | ss
  · simp [transformShapeAttrs, hcf, hcs, visibleColor]
  · by_cases hss : (ss.isEmpty = false ∧ ¬jsToLower ss = "none")
    · simp [transformShapeAttrs, hcf, hcs, visibleColor, hss, findLayerConfig_nil]
    · simp [transformShapeAttrs, hcf, hcs, visibleColor, hss, findLayerConfig_nil]
  · by_cases hsf : (sf.isEmpty = false ∧ ¬jsToLower sf = "none")
    · simp [transformShapeAttrs, hcf, hcs, visibleColor, hsf, findLayerConfig_nil]
    · simp [transformShapeAttrs, hcf, hcs, visibleColor, hsf, findLayerConfig_nil]
  · by_cases hsf : (sf.isEmpty = false ∧ ¬jsToLower sf = "none") <;>
      by_cases hss : (ss.isEmpty = false ∧ ¬jsToLower ss = "none")
    · simp [transformShapeAttrs, hcf, hcs, visibleColor, hsf, hss, findLayerConfig_nil]
    · simp [transformShapeAttrs, hcf, hcs, visibleColor, hsf, hss, findLayerConfig_nil]
    · simp [transformShapeAttrs, hcf, hcs, visibleColor, hsf, hss, findLayerConfig_nil]
    · simp [transformShapeAttrs, hcf, hcs, visibleColor, hsf, hss, findLayerConfig_nil]

/-- Rule mode with an empty rule list coincides with the colorless-keeping
filter. -/
theorem processChildren_empty_rules (sm : StyleMap) :
    ∀ f, processChildren sm (some []) f = keepColorlessF sm f := by
  refine forest_induction _ rfl ?_
  intro t a ch rest ihch ihrest
  cases hsh : isShapeTag t
  · simp [processChildren, processNode, keepColorlessF, keepColorlessN, hsh, ihch, ihrest]
  · rw [show processChildren sm (some []) (XNode.elem t a ch :: rest) =
        (match processNode sm (some []) (XNode.elem t a ch) with
         | none => processChildren sm (some []) rest
         | some n' => n' :: processChildren sm (some []) rest) from rfl]
    cases hv : (visibleColor (getElementColorsA a sm).fill ||
        visibleColor (getElementColorsA a sm).stroke) <;>
      simp [processNode, keepColorlessF, keepColorlessN, hsh, transform_empty_rules, hv,
        ihch, ihrest]

/-- Claim C3 (counterexample): with an empty rule list, a shape node with
no resolved color is kept, so rule mode does not remove every shape
node. -/
theorem empty_rules_claim_false :
    processLayersForPanel noBBox noDBBox (.doc [] [] [colorlessPath]) (some []) {} =
      .processed [colorlessPath] ∧
    shapeCountF [colorlessPath] = 1 :=
  ⟨rfl, rfl⟩

/-- Claim C3 (amended): with ornament-hole removal and round backer
disabled, passthrough removes no shape node (the skeleton of the document,
beyond the stripped style element, is preserved); rule mode with an empty
rule list removes exactly the shape nodes with a visible resolved color,
keeping colorless shapes (scoping stripped) and pruning emptied groups. -/
theorem empty_rules_amended :
    (∀ (sm : StyleMap) (f : List XNode),
      skeletonF (processChildren sm none f) = skeletonF f) ∧
    (∀ (bbox : XNode → Option Rect) (dBBox : String → Option Rect) (sm : StyleMap)
      (ra : Attrs) (ch : List XNode) (w : ℚ),
      processLayersForPanel bbox dBBox (.doc sm ra ch) none ⟨false, false, w⟩ =
        .processed (processChildren sm none (removeFirstStyleF ch).1)) ∧
    (∀ (bbox : XNode → Option Rect) (dBBox : String → Option Rect) (sm : StyleMap)
      (ra : Attrs) (ch : List XNode) (w : ℚ),
      processLayersForPanel bbox dBBox (.doc sm ra ch) (some []) ⟨false, false, w⟩ =
        .processed (cleanupForest (keepColorlessF sm (removeFirstStyleF ch).1))) := by
  refine ⟨processChildren_passthrough_skeleton, ?_, ?_⟩
  · intro bbox dBBox sm ra ch w
    cases h : getSvgViewBox ra <;>
      simp [processLayersForPanel, processedBeforeCover, h]
  · intro bbox dBBox sm ra ch w
    cases h : getSvgViewBox ra <;>
      simp [processLayersForPanel, processedBeforeCover, h, processChildren_empty_rules]

/-- Claim C4: with round backer enabled and a viewbox available the
pipeline ends at the backer stage (no hole-cover runs); given a saved
cut-line bbox the synthesized circle has diameter bbox.width and center
(bbox.x + width/2, bbox.y + height - width/2); with no cut line found the
circle has diameter 95% of min(viewbox dims) and sits at the viewbox
center. -/
theorem round_backer_geometry :
    (∀ (bbox : XNode → Option Rect) (dBBox : String → Option Rect) (sm : StyleMap)
      (ra : Attrs) (ch : List XNode) (ls : Option (List LayerConfig))
      (opts : ProcessingOptions) (vb : Rect),
      opts.addRoundBacker = true → getSvgViewBox ra = some vb →
      processLayersForPanel bbox dBBox (.doc sm ra ch) ls opts =
        .processed (processedBeforeCover bbox dBBox sm ra ch ls opts)) ∧
    (∀ (bbox : XNode → Option Rect) (vb : Rect) (sm : StyleMap) (w : ℚ)
      (f : List XNode) (b : Rect),
      addRoundBackerOutline bbox vb sm w (some b) f =
        removeBlueStroked sm f ++
          [backerCircleNode (b.x + b.width / 2) (b.y + b.height - b.width / 2)
            (b.width / 2) w]) ∧
    (∀ (bbox : XNode → Option Rect) (vb : Rect) (sm : StyleMap) (w : ℚ) (f : List XNode),
      searchCutLine bbox sm f = none →
      addRoundBackerOutline bbox vb sm w none f =
        f ++ [backerCircleNode (vb.x + vb.width / 2) (vb.y + vb.height / 2)
          (min vb.width vb.height * 0.95 / 2) w]) := by
  refine ⟨?_, ?_, ?_⟩
  · intro bbox dBBox sm ra ch ls opts vb hab hvb
    simp [processLayersForPanel, hvb, hab]
  · intro bbox vb sm w f b
    rfl
  · intro bbox vb sm w f h
    simp [addRoundBackerOutline, h]

/-- Claim C4 (witness): the cut-line bbox (0, 0, 40, 50) yields a circle
of diameter 40 with center y 30; with no cut line in an empty document and
viewbox (0, 0, 100, 100), the fallback circle has diameter 95 at the
viewbox center. -/
theorem round_backer_witness :
    addRoundBackerOutline noBBox ⟨0, 0, 100, 100⟩ [] (1/2) (some ⟨0, 0, 40, 50⟩) [] =
      [backerCircleNode ((0 : ℚ) + 40 / 2) ((0 : ℚ) + 50 - 40 / 2) ((40 : ℚ) / 2) (1/2)] ∧
    ((0 : ℚ) + 50 - 40 / 2 = 30 ∧ (0 : ℚ) + 40 / 2 = 20 ∧ ((40 : ℚ) / 2) * 2 = 40) ∧
    searchCutLine noBBox [] [] = none ∧
    addRoundBackerOutline noBBox ⟨0, 0, 100, 100⟩ [] (1/2) none [] =
      [backerCircleNode ((0 : ℚ) + 100 / 2) ((0 : ℚ) + 100 / 2)
        (min (100 : ℚ) 100 * 0.95 / 2) (1/2)] ∧
    min (100 : ℚ) 100 * 0.95 = 95 := by
  refine ⟨?_, by norm_num, rfl, ?_, by norm_num⟩
  · exact round_backer_geometry.2.1 noBBox ⟨0, 0, 100, 100⟩ [] (1/2) [] ⟨0, 0, 40, 50⟩
  · exact round_backer_geometry.2.2 noBBox ⟨0, 0, 100, 100⟩ [] (1/2) [] rfl

/-- The viewBox attribute "0 0 100 100" parses to the unit rectangle of
side 100. -/
theorem vbAttrs_viewBox : getSvgViewBox vbAttrs = some ⟨0, 0, 100, 100⟩ := by
  have hd : digitsToNat ['1', '0', '0'] = 100 := by decide
  have hd0 : digitsToNat ['0'] = 0 := by decide
  have hdn : digitsToNat [] = 0 := by decide
  have h1 : jsNumber ['0'] = some (decValue ['0'] []) := rfl
  have h2 : jsNumber ['1', '0', '0'] = some (decValue ['1', '0', '0'] []) := rfl
  have e0 : decValue ['0'] [] = 0 := by
    simp only [decValue, hd0, hdn]
    norm_num
  have e1 : decValue ['1', '0', '0'] [] = 100 := by
    simp only [decValue, hd, hdn]
    norm_num
  have hmap : (jsSplitWsComma "0 0 100 100".data).map jsNumber =
      [some (decValue ['0'] []), some (decValue ['0'] []),
        some (decValue ['1', '0', '0'] []), some (decValue ['1', '0', '0'] [])] := rfl
  unfold getSvgViewBox
  simp only [show getAttr vbAttrs "viewBox" = some "0 0 100 100" from rfl,
    show ("0 0 100 100").isEmpty = false from rfl, hmap, e0, e1]
  norm_num

/-- The ornament-hole heuristic leaves the big stroked path alone: its
single-subpath data gives no compound candidates, and its 80% size ratio
fails the ≤10% standalone filter. -/
theorem hole_removal_leaves_big_path :
    removeOrnamentHoleIfFound bigPathBBox noDBBox ⟨0, 0, 100, 100⟩ [bigStrokedPath] =
      [bigStrokedPath] := by
  have hsub : removeOrnamentSubpaths noDBBox ⟨0, 0, 100, 100⟩ [bigStrokedPath] =
      [bigStrokedPath] := rfl
  have hcand : (collectIdxF ["circle", "ellipse", "path", "rect", "use", "polygon"] 0
      [bigStrokedPath]).1 = [(0, bigStrokedPath)] := rfl
  have hbb : bigPathBBox bigStrokedPath = some ⟨0, 0, 80, 80⟩ := rfl
  have hle : ¬(max (80 : ℚ) 80 ≤ 0) := by norm_num
  have hsr : ((max (80 : ℚ) 80 / min (100 : ℚ) 100 < 0.02) ∨
      (0.10 < max (80 : ℚ) 80 / min (100 : ℚ) 100)) := by norm_num
  unfold removeOrnamentHoleIfFound
  rw [hsub]
  unfold removeStandaloneHoles
  rw [hcand]
  simp only [List.filterMap, hbb, show (XNode.tag bigStrokedPath = "text") = False from by
    simp [bigStrokedPath, XNode.tag]]
  rw [if_neg hle, if_pos hsr]
  rfl

/-- Claim C6 (counterexample): with BOTH ornament-hole removal and the
round backer enabled, a qualifying stroked path is present after all other
processing, yet no cover circle is appended (the fallback is gated on the
round backer being off). -/
theorem hole_cover_claim_false :
    (collectTagsF ["path"] (processedBeforeCover bigPathBBox noDBBox [] vbAttrs
        [bigStrokedPath] none ⟨true, true, 1/2⟩)).any
      (coverQualifies bigPathBBox ⟨0, 0, 100, 100⟩) = true ∧
    resultHasHoleCover (processLayersForPanel bigPathBBox noDBBox
      (.doc [] vbAttrs [bigStrokedPath]) none ⟨true, true, 1/2⟩) = false := by
  have hdet : detectCutLineBbox bigPathBBox [] [bigStrokedPath] = none := rfl
  have hsearch : searchCutLine bigPathBBox [] [bigStrokedPath] = none := rfl
  have hproc : processChildren [] none (removeFirstStyleF [bigStrokedPath]).1 =
      [bigStrokedPath] := rfl
  have hmid : processedBeforeCover bigPathBBox noDBBox [] vbAttrs [bigStrokedPath] none
      ⟨true, true, 1/2⟩ =
      [bigStrokedPath, backerCircleNode ((0 : ℚ) + 100 / 2) ((0 : ℚ) + 100 / 2)
        (min (100 : ℚ) 100 * 0.95 / 2) (1/2)] := by
    unfold processedBeforeCover addRoundBackerOutline
    rw [vbAttrs_viewBox]
    simp [hole_removal_leaves_big_path, hdet, hproc, hsearch]
  have hqual : coverQualifies bigPathBBox ⟨0, 0, 100, 100⟩ bigStrokedPath = true := by
    have h15 : ¬((0 : ℚ) + 100 * 0.15 < 0) := by norm_num
    have h70 : ¬(max (80 : ℚ) 80 / min (100 : ℚ) 100 < 0.7) := by norm_num
    unfold coverQualifies
    simp only [show getAttr (XNode.attrs bigStrokedPath) "d" = some "M0 0 L80 80" from rfl,
      show getAttr (XNode.attrs bigStrokedPath) "stroke" = some "#000000" from rfl,
      show bigPathBBox bigStrokedPath = some ⟨0, 0, 80, 80⟩ from rfl,
      show ("M0 0 L80 80").isEmpty = false from rfl,
      show (("#000000").isEmpty || jsToLower "#000000" == "none") = false from rfl]
    norm_num
  constructor
  · rw [hmid, show collectTagsF ["path"] [bigStrokedPath,
        backerCircleNode ((0 : ℚ) + 100 / 2) ((0 : ℚ) + 100 / 2)
          (min (100 : ℚ) 100 * 0.95 / 2) (1/2)] = [bigStrokedPath] from rfl]
    simp [hqual]
  · rw [show processLayersForPanel bigPathBBox noDBBox (.doc [] vbAttrs [bigStrokedPath])
        none ⟨true, true, 1/2⟩ = .processed (processedBeforeCover bigPathBBox noDBBox []
          vbAttrs [bigStrokedPath] none ⟨true, true, 1/2⟩) from by
      simp [processLayersForPanel, vbAttrs_viewBox]]
    rw [hmid]
    rfl

/-- Claim C6 (amended): whenever ornament-hole removal is enabled, the
round backer is DISABLED, a viewbox is available, and after all other
processing some stroked path qualifies (spans at least 70% of the min
viewbox dimension and reaches the top 15%), the background-colored cover
circle (radius 5% of min dimension, centered 6% of the height from the
top) is appended. -/
theorem hole_cover_amended (bbox : XNode → Option Rect) (dBBox : String → Option Rect)
    (sm : StyleMap) (ra : Attrs) (ch : List XNode) (ls : Option (List LayerConfig))
    (w : ℚ) (vb : Rect) (hvb : getSvgViewBox ra = some vb)
    (hq : (collectTagsF ["path"] (processedBeforeCover bbox dBBox sm ra ch ls
        ⟨true, false, w⟩)).any (coverQualifies bbox vb) = true) :
    processLayersForPanel bbox dBBox (.doc sm ra ch) ls ⟨true, false, w⟩ =
      .processed (processedBeforeCover bbox dBBox sm ra ch ls ⟨true, false, w⟩ ++
        [coverCircleNode (vb.x + vb.width / 2) (vb.y + vb.height * 0.06)
          (min vb.width vb.height * 0.05)]) := by
  simp [processLayersForPanel, hvb, coverOrnamentHole, hq]

/-- Claim C6 (witness): the amended statement at a concrete document whose
only path spans 80% of the viewbox and touches the top. -/
theorem hole_cover_witness :
    getSvgViewBox vbAttrs = some ⟨0, 0, 100, 100⟩ ∧
    (collectTagsF ["path"] (processedBeforeCover bigPathBBox noDBBox [] vbAttrs
        [bigStrokedPath] none ⟨true, false, 1/2⟩)).any
      (coverQualifies bigPathBBox ⟨0, 0, 100, 100⟩) = true ∧
    processLayersForPanel bigPathBBox noDBBox (.doc [] vbAttrs [bigStrokedPath]) none
        ⟨true, false, 1/2⟩ =
      .processed (processedBeforeCover bigPathBBox noDBBox [] vbAttrs [bigStrokedPath] none
          ⟨true, false, 1/2⟩ ++
        [coverCircleNode ((0 : ℚ) + 100 / 2) ((0 : ℚ) + 100 * 0.06)
          (min (100 : ℚ) 100 * 0.05)]) ∧
    (min (100 : ℚ) 100 * 0.05 = 5 ∧ (0 : ℚ) + 100 * 0.06 = 6) := by
  have hdet : detectCutLineBbox bigPathBBox [] [bigStrokedPath] = none := rfl
  have hmid : processedBeforeCover bigPathBBox noDBBox [] vbAttrs [bigStrokedPath] none
      ⟨true, false, 1/2⟩ = [bigStrokedPath] := by
    unfold processedBeforeCover
    rw [vbAttrs_viewBox]
    simp only [hole_removal_leaves_big_path]
    simp
    rfl
  have hqual : coverQualifies bigPathBBox ⟨0, 0, 100, 100⟩ bigStrokedPath = true := by
    have h15 : ¬((0 : ℚ) + 100 * 0.15 < 0) := by norm_num
    have h70 : ¬(max (80 : ℚ) 80 / min (100 : ℚ) 100 < 0.7) := by norm_num
    unfold coverQualifies
    simp only [show getAttr (XNode.attrs bigStrokedPath) "d" = some "M0 0 L80 80" from rfl,
      show getAttr (XNode.attrs bigStrokedPath) "stroke" = some "#000000" from rfl,
      show bigPathBBox bigStrokedPath = some ⟨0, 0, 80, 80⟩ from rfl,
      show ("M0 0 L80 80").isEmpty = false from rfl,
      show (("#000000").isEmpty || jsToLower "#000000" == "none") = false from rfl]
    norm_num
  have hq : (collectTagsF ["path"] (processedBeforeCover bigPathBBox noDBBox [] vbAttrs
      [bigStrokedPath] none ⟨true, false, 1/2⟩)).any
      (coverQualifies bigPathBBox ⟨0, 0, 100, 100⟩) = true := by
    rw [hmid, show collectTagsF ["path"] [bigStrokedPath] = [bigStrokedPath] from rfl]
    simp [hqual]
  exact ⟨vbAttrs_viewBox, hq,
    hole_cover_amended bigPathBBox noDBBox [] vbAttrs [bigStrokedPath] none (1/2)
      ⟨0, 0, 100, 100⟩ vbAttrs_viewBox hq, by norm_num⟩

theorem getAttr_replace_self (k v : String) :
    ∀ a : Attrs,
      getAttr (a.map (fun p => if p.1 == k then (k, v) else p)) k =
        (getAttr a k).map (fun _ => v) := by
  intro a
  induction a with
  | nil => rfl
  | cons p rest ih =>
    by_cases hp : p.1 = k
    · rw [List.map_cons, show (if p.1 == k then (k, v) else p) = (k, v) from by simp [hp]]
      unfold getAttr
      rw [List.find?_cons_of_pos _ (by simp), List.find?_cons_of_pos _ (by simp [hp])]
      rfl
    · rw [List.map_cons, show (if p.1 == k then (k, v) else p) = p from by simp [hp]]
      unfold getAttr
      rw [List.find?_cons_of_neg _ (by simp [hp]), List.find?_cons_of_neg _ (by simp [hp])]
      exact ih

theorem getAttr_append_single (k v : String) :
    ∀ a : Attrs, a.any (fun p => p.1 == k) = false →
      getAttr (a ++ [(k, v)]) k = some v := by
  intro a
  induction a with
  | nil => simp [getAttr, List.find?]
  | cons p rest ih =>
    intro h
    have hp : ¬(p.1 = k) := by
      intro hk
      simp [hk] at h
    have hr : rest.any (fun q => q.1 == k) = false := by
      simp only [List.any_cons, Bool.or_eq_false_iff] at h
      exact h.2
    rw [List.cons_append]
    unfold getAttr
    rw [List.find?_cons_of_neg _ (by simp [hp])]
    exact ih hr

/-- Reading back the attribute just set. -/
theorem getAttr_setAttr_self (a : Attrs) (k v : String) :
    getAttr (setAttr a k v) k = some v := by
  unfold setAttr
  by_cases h : a.any (fun p => p.1 == k)
  · rw [if_pos h, getAttr_replace_self]
    have hsome : (List.find? (fun p => p.1 == k) a).isSome := by
      rw [List.find?_isSome]
      simpa using List.any_eq_true.mp h
    obtain ⟨x, hx⟩ := Option.isSome_iff_exists.mp hsome
    unfold getAttr
    rw [hx]
    rfl
  · rw [if_neg h]
    exact getAttr_append_single k v a (Bool.eq_false_iff.mpr h)

theorem getAttr_replace_other (k v k' : String) (hne : k' ≠ k) :
    ∀ a : Attrs, getAttr (a.map (fun p => if p.1 == k then (k, v) else p)) k' = getAttr a k' := by
  intro a
  induction a with
  | nil => rfl
  | cons p rest ih =>
    by_cases hp : p.1 = k
    · have hkk : ¬(k = k') := fun hk => hne hk.symm
      have hpk : ¬(p.1 = k') := by
        rw [hp]
        exact hkk
      rw [List.map_cons, show (if p.1 == k then (k, v) else p) = (k, v) from by simp [hp]]
      unfold getAttr
      rw [List.find?_cons_of_neg _ (by simp [hkk]), List.find?_cons_of_neg _ (by simp [hpk])]
      exact ih
    · rw [List.map_cons, show (if p.1 == k then (k, v) else p) = p from by simp [hp]]
      by_cases hq : p.1 = k'
      · unfold getAttr
        rw [List.find?_cons_of_pos _ (by simp [hq]), List.find?_cons_of_pos _ (by simp [hq])]
      · unfold getAttr
        rw [List.find?_cons_of_neg _ (by simp [hq]), List.find?_cons_of_neg _ (by simp [hq])]
        exact ih

theorem getAttr_append_other (k v k' : String) (hne : k' ≠ k) :
    ∀ a : Attrs, getAttr (a ++ [(k, v)]) k' = getAttr a k' := by
  intro a
  induction a with
  | nil =>
    unfold getAttr
    rw [List.nil_append, List.find?_cons_of_neg _ (by simp [Ne.symm hne])]
  | cons p rest ih =>
    rw [List.cons_append]
    by_cases hq : p.1 = k'
    · unfold getAttr
      rw [List.find?_cons_of_pos _ (by simp [hq]), List.find?_cons_of_pos _ (by simp [hq])]
    · unfold getAttr
      rw [List.find?_cons_of_neg _ (by simp [hq]), List.find?_cons_of_neg _ (by simp [hq])]
      exact ih

/-- Setting one attribute leaves the others readable unchanged. -/
theorem getAttr_setAttr_other (a : Attrs) (k v k' : String) (hne : k' ≠ k) :
    getAttr (setAttr a k v) k' = getAttr a k' := by
  unfold setAttr
  by_cases h : a.any (fun p => p.1 == k)
  · rw [if_pos h]
    exact getAttr_replace_other k v k' hne a
  · rw [if_neg h]
    exact getAttr_append_other k v k' hne a

theorem map_id_of_no_key (k v : String) :
    ∀ a : Attrs, (∀ q ∈ a, ¬(q.1 = k)) →
      a.map (fun p => if p.1 == k then (k, v) else p) = a := by
  intro a
  induction a with
  | nil => intro _; rfl
  | cons p rest ih =>
    intro h
    rw [List.map_cons,
      show (if p.1 == k then (k, v) else p) = p from by simp [h p (List.mem_cons_self p rest)],
      ih (fun q hq => h q (List.mem_cons_of_mem _ hq))]

theorem replace_map_eq_self (k v : String) :
    ∀ a : Attrs, (a.map Prod.fst).Nodup → getAttr a k = some v →
      a.map (fun p => if p.1 == k then (k, v) else p) = a := by
  intro a
  induction a with
  | nil => intro _ hv; cases hv
  | cons p rest ih =>
    intro hnd hv
    by_cases hp : p.1 = k
    · have hpv : p.2 = v := by
        unfold getAttr at hv
        rw [List.find?_cons_of_pos _ (by simp [hp])] at hv
        simpa using hv
      have hknot : ∀ q ∈ rest, ¬(q.1 = k) := by
        intro q hq hqk
        have : p.1 ∈ rest.map Prod.fst := by
          rw [hp, ← hqk]
          exact List.mem_map_of_mem _ hq
        exact (List.nodup_cons.mp hnd).1 this
      rw [List.map_cons, show (if p.1 == k then (k, v) else p) = p from by
          simp [hp, ← hpv, Prod.ext_iff],
        map_id_of_no_key k v rest hknot]
    · have hv' : getAttr rest k = some v := by
        unfold getAttr at hv ⊢
        rwa [List.find?_cons_of_neg _ (by simp [hp])] at hv
      rw [List.map_cons, show (if p.1 == k then (k, v) else p) = p from by simp [hp],
        ih (List.nodup_cons.mp hnd).2 hv']

/-- Setting an attribute to the value it already has changes nothing
(given unique attribute names, as the DOM guarantees). -/
theorem setAttr_eq_self (a : Attrs) (k v : String)
    (hnd : (a.map Prod.fst).Nodup) (hv : getAttr a k = some v) : setAttr a k v = a := by
  have hfind : ∃ x, List.find? (fun p => p.1 == k) a = some x := by
    unfold getAttr at hv
    rcases hfx : List.find? (fun p => p.1 == k) a with _ | x
    · rw [hfx] at hv
      cases hv
    · exact ⟨x, hfx⟩
  obtain ⟨x, hx⟩ := hfind
  have hany : a.any (fun p => p.1 == k) = true :=
    List.any_eq_true.mpr ⟨x, List.mem_of_find?_eq_some hx, (List.find?_eq_some.mp hx).1⟩
  unfold setAttr
  rw [if_pos hany]
  exact replace_map_eq_self k v a hnd hv

/-- Removing an absent attribute changes nothing. -/
theorem removeAttr_eq_self (a : Attrs) (k : String) (h : getAttr a k = none) :
    removeAttr a k = a := by
  induction a with
  | nil => rfl
  | cons p rest ih =>
    have hp : ¬(p.1 = k) := by
      intro hk
      unfold getAttr at h
      rw [List.find?_cons_of_pos _ (by simp [hk])] at h
      cases h
    have h' : getAttr rest k = none := by
      unfold getAttr at h ⊢
      rwa [List.find?_cons_of_neg _ (by simp [hp])] at h
    unfold removeAttr at ih ⊢
    rw [List.filter_cons_of_pos (by simp [hp]), ih h']

theorem getAttr_removeAttr_same (a : Attrs) (k : String) :
    getAttr (removeAttr a k) k = none := by
  induction a with
  | nil => rfl
  | cons p rest ih =>
    by_cases hp : p.1 = k
    · unfold removeAttr at ih ⊢
      rwa [List.filter_cons_of_neg (by simp [hp])]
    · unfold removeAttr at ih ⊢
      rw [List.filter_cons_of_pos (by simp [hp])]
      unfold getAttr at ih ⊢
      rwa [List.find?_cons_of_neg _ (by simp [hp])]

theorem getAttr_removeAttr_other (a : Attrs) (k k' : String) (hne : k' ≠ k) :
    getAttr (removeAttr a k) k' = getAttr a k' := by
  induction a with
  | nil => rfl
  | cons p rest ih =>
    by_cases hp : p.1 = k
    · have hpk : ¬(p.1 = k') := by
        rw [hp]
        exact fun hk => hne hk.symm
      unfold removeAttr at ih ⊢
      rw [List.filter_cons_of_neg (by simp [hp])]
      unfold getAttr at ih ⊢
      rw [List.find?_cons_of_neg _ (by simp [hpk])]
      exact ih
    · unfold removeAttr at ih ⊢
      rw [List.filter_cons_of_pos (by simp [hp])]
      by_cases hq : p.1 = k'
      · unfold getAttr
        rw [List.find?_cons_of_pos _ (by simp [hq]), List.find?_cons_of_pos _ (by simp [hq])]
      · unfold getAttr at ih ⊢
        rw [List.find?_cons_of_neg _ (by simp [hq]), List.find?_cons_of_neg _ (by simp [hq])]
        exact ih

theorem keys_replace (k v : String) :
    ∀ a : Attrs, (a.map (fun p => if p.1 == k then (k, v) else p)).map Prod.fst =
      a.map Prod.fst := by
  intro a
  induction a with
  | nil => rfl
  | cons p rest ih =>
    by_cases hp : p.1 = k
    · rw [List.map_cons, show (if p.1 == k then (k, v) else p) = (k, v) from by simp [hp],
        List.map_cons, List.map_cons, ih]
      simp [hp]
    · rw [List.map_cons, show (if p.1 == k then (k, v) else p) = p from by simp [hp],
        List.map_cons, List.map_cons, ih]

/-- setAttribute preserves uniqueness of attribute names. -/
theorem nodup_setAttr (a : Attrs) (k v : String) (h : (a.map Prod.fst).Nodup) :
    ((setAttr a k v).map Prod.fst).Nodup := by
  unfold setAttr
  by_cases hany : a.any (fun p => p.1 == k)
  · rw [if_pos hany, keys_replace]
    exact h
  · rw [if_neg hany, List.map_append]
    have hnotin : k ∉ a.map Prod.fst := by
      intro hk
      obtain ⟨p, hp, hpk⟩ := List.mem_map.mp hk
      exact hany (List.any_eq_true.mpr ⟨p, hp, by simp [hpk]⟩)
    simp only [List.map_cons, List.map_nil]
    exact List.Nodup.append h (List.nodup_singleton k)
      (by
        intro x hx hx'
        simp only [List.mem_singleton] at hx'
        exact hnotin (hx' ▸ hx))

/-- removeAttribute preserves uniqueness of attribute names. -/
theorem nodup_removeAttr (a : Attrs) (k : String) (h : (a.map Prod.fst).Nodup) :
    ((removeAttr a k).map Prod.fst).Nodup :=
  List.Nodup.sublist (List.Sublist.map Prod.fst (List.filter_sublist a)) h

/-- With no class and no style attribute, resolution reads only direct
attributes, whatever the style map. -/
theorem getElementColorsA_clean (a : Attrs) (sm : StyleMap)
    (hc : getAttr a "class" = none) (hs : getAttr a "style" = none) :
    getElementColorsA a sm = directColors a := by
  simp [getElementColorsA, directColors, hc, hs, truthy]

theorem jsToLower_none : jsToLower "none" = "none" := rfl

theorem visibleColor_some_none : visibleColor (some "none") = false := by
  simp [visibleColor, jsToLower_none]

/-- A clean element with no visible resolved color is transformed to
itself (kept as-is). -/
theorem transform_kept (ls : List LayerConfig) (t : String) (a : Attrs)
    (hc : getAttr a "class" = none) (hs : getAttr a "style" = none)
    (hf : visibleColor (directColors a).fill = false)
    (hst : visibleColor (directColors a).stroke = false) :
    transformShapeAttrs [] (some ls) t a = some a := by
  unfold transformShapeAttrs
  rw [getElementColorsA_clean a [] hc hs, removeAttr_eq_self a "class" hc,
    removeAttr_eq_self a "style" hs]
  simp [hf, hst]

/-- A clean element painted as a fill (fill = output color, stroke = none)
is reproduced exactly by a second pass, when the output color resolves
back to a non-hidden fill-mode rule with the same output color. -/
theorem transform_fill_stable (ls : List LayerConfig) (t : String) (a' : Attrs)
    (oc : String) (l' : LayerConfig)
    (hnd : (a'.map Prod.fst).Nodup)
    (hc : getAttr a' "class" = none) (hs : getAttr a' "style" = none)
    (hfill : getAttr a' "fill" = some oc)
    (hstroke : getAttr a' "stroke" = some "none")
    (hocne : oc.isEmpty = false) (hoclow : ¬jsToLower oc = "none")
    (hfind : findLayerConfig oc ls = some l')
    (hhid : ¬l'.visibility = .hidden)
    (hmode : l'.renderMode = .fillMode)
    (hout : l'.outputColor = some oc) :
    transformShapeAttrs [] (some ls) t a' = some a' := by
  have hnn : "none".isEmpty = false := by decide
  have hdf : (directColors a').fill = some oc := by
    simp [directColors, hfill, truthy, hocne]
  have hds : (directColors a').stroke = some "none" := by
    simp [directColors, hstroke, truthy, hnn]
  have hvf : visibleColor (some oc) = true := by
    simp [visibleColor, hocne, hoclow]
  have e1 : setAttr a' "fill" oc = a' := setAttr_eq_self _ _ _ hnd hfill
  have e2 : setAttr a' "stroke" "none" = a' := setAttr_eq_self _ _ _ hnd hstroke
  unfold transformShapeAttrs
  rw [getElementColorsA_clean a' [] hc hs, removeAttr_eq_self a' "class" hc,
    removeAttr_eq_self a' "style" hs]
  simp [hdf, hds, hvf, visibleColor_some_none, hfind, hhid, hmode, hout, truthy, hocne,
    e1, e2]

theorem orDefault_isEmpty_false (v : Option String) (d : String) (hd : d.isEmpty = false) :
    (orDefault v d).isEmpty = false := by
  cases v with
  | none => simpa [orDefault] using hd
  | some s =>
    by_cases hse : s.isEmpty
    · simpa [orDefault, hse] using hd
    · simp [orDefault, hse]

/-- A clean element painted as a stroke (fill = none, stroke = output
color, a truthy stroke-width) is reproduced exactly by a second pass, when
the output color resolves back to a non-hidden stroke-mode rule with the
same output color. -/
theorem transform_stroke_stable (ls : List LayerConfig) (t : String) (a' : Attrs)
    (oc w : String) (l' : LayerConfig)
    (hnd : (a'.map Prod.fst).Nodup)
    (hc : getAttr a' "class" = none) (hs : getAttr a' "style" = none)
    (hfill : getAttr a' "fill" = some "none")
    (hstroke : getAttr a' "stroke" = some oc)
    (hwidth : getAttr a' "stroke-width" = some w) (hwne : w.isEmpty = false)
    (hocne : oc.isEmpty = false) (hoclow : ¬jsToLower oc = "none")
    (hfind : findLayerConfig oc ls = some l')
    (hhid : ¬l'.visibility = .hidden)
    (hmode : l'.renderMode = .strokeMode)
    (hout : l'.outputColor = some oc) :
    transformShapeAttrs [] (some ls) t a' = some a' := by
  have hnn : "none".isEmpty = false := by decide
  have hdf : (directColors a').fill = some "none" := by
    simp [directColors, hfill, truthy, hnn]
  have hds : (directColors a').stroke = some oc := by
    simp [directColors, hstroke, truthy, hocne]
  have hdw : (directColors a').strokeWidth = some w := by
    simp [directColors, hwidth, truthy, hwne]
  have hvs : visibleColor (some oc) = true := by
    simp [visibleColor, hocne, hoclow]
  have e1 : setAttr a' "fill" "none" = a' := setAttr_eq_self _ _ _ hnd hfill
  have e2 : setAttr a' "stroke" oc = a' := setAttr_eq_self _ _ _ hnd hstroke
  have e3 : setAttr a' "stroke-width" w = a' := setAttr_eq_self _ _ _ hnd hwidth
  have e0 : orDefault (some w) "0.5" = w := by
    simp [orDefault, hwne]
  unfold transformShapeAttrs
  rw [getElementColorsA_clean a' [] hc hs, removeAttr_eq_self a' "class" hc,
    removeAttr_eq_self a' "style" hs]
  simp [hdf, hds, hdw, hvs, visibleColor_some_none, hfind, hhid, hmode, hout, truthy, hocne,
    e0, e1, e2, e3]

theorem findLayerConfig_mem (c : String) (ls : List LayerConfig) (l : LayerConfig)
    (h : findLayerConfig c ls = some l) : l ∈ ls := by
  simp only [findLayerConfig] at h
  split at h
  · cases h
  · exact List.mem_of_find?_eq_some h

/-- What the self-reproduction condition yields for a matched, non-hidden
rule. -/
theorem rule_reproduces_of_mem (ls : List LayerConfig) (l : LayerConfig)
    (hR : rulesSelfReproducing ls = true) (hmem : l ∈ ls)
    (hhid : ¬l.visibility = .hidden) :
    ∃ oc l', l.outputColor = some oc ∧ oc.isEmpty = false ∧ ¬jsToLower oc = "none" ∧
      findLayerConfig oc ls = some l' ∧ ¬l'.visibility = .hidden ∧
      l'.renderMode = l.renderMode ∧ l'.outputColor = some oc := by
  have h := List.all_eq_true.mp hR l hmem
  unfold ruleSelfReproducing at h
  rw [Bool.or_eq_true] at h
  rcases h with h | h
  · exact absurd (of_decide_eq_true h) hhid
  · rcases hoc : l.outputColor with _ | oc
    · simp only [hoc] at h
      simp at h
    · simp only [hoc] at h
      rcases hf : findLayerConfig oc ls with _ | l'
      · simp only [hf] at h
        simp at h
      · simp only [hf] at h
        simp only [Bool.and_eq_true, Bool.not_eq_true', beq_iff_eq, beq_eq_false_iff_ne,
          decide_eq_true_eq, ne_eq] at h
        obtain ⟨⟨h1, h2⟩, ⟨h3, h4⟩, h5⟩ := h
        exact ⟨oc, l', rfl, h1, h2, hf, h3, h4, h5⟩

theorem neq_class_fill : "class" ≠ "fill" := by decide

theorem neq_class_stroke : "class" ≠ "stroke" := by decide

theorem neq_class_sw : "class" ≠ "stroke-width" := by decide

theorem neq_style_fill : "style" ≠ "fill" := by decide

theorem neq_style_stroke : "style" ≠ "stroke" := by decide

theorem neq_style_sw : "style" ≠ "stroke-width" := by decide

theorem neq_fill_stroke : "fill" ≠ "stroke" := by decide

theorem neq_fill_sw : "fill" ≠ "stroke-width" := by decide

theorem neq_stroke_sw : "stroke" ≠ "stroke-width" := by decide

-- The three attribute shapes a matched rule emits, each reproduced
-- verbatim by a second pass on clean input: the fill-painted form, the
-- doubly muted form of the open-path fill branch (kept as-is since both
-- colors are `none`), and the stroke-painted form.

theorem stable_form_A (ls : List LayerConfig) (t : String) (a : Attrs) (oc : String)
    (l' : LayerConfig)
    (hnd : (a.map Prod.fst).Nodup)
    (hca : getAttr a "class" = none) (hsa : getAttr a "style" = none)
    (hocne : oc.isEmpty = false) (hoclow : ¬jsToLower oc = "none")
    (hfind : findLayerConfig oc ls = some l') (hhid : ¬l'.visibility = .hidden)
    (hmode : l'.renderMode = .fillMode) (hout : l'.outputColor = some oc) :
    transformShapeAttrs [] (some ls) t (setAttr (setAttr a "fill" oc) "stroke" "none") =
      some (setAttr (setAttr a "fill" oc) "stroke" "none") := by
  have h1 : getAttr (setAttr (setAttr a "fill" oc) "stroke" "none") "class" = none := by
    rw [getAttr_setAttr_other _ _ _ _ neq_class_stroke,
      getAttr_setAttr_other _ _ _ _ neq_class_fill]
    exact hca
  have h2 : getAttr (setAttr (setAttr a "fill" oc) "stroke" "none") "style" = none := by
    rw [getAttr_setAttr_other _ _ _ _ neq_style_stroke,
      getAttr_setAttr_other _ _ _ _ neq_style_fill]
    exact hsa
  have h3 : getAttr (setAttr (setAttr a "fill" oc) "stroke" "none") "fill" = some oc := by
    rw [getAttr_setAttr_other _ _ _ _ neq_fill_stroke]
    exact getAttr_setAttr_self _ _ _
  have h4 : getAttr (setAttr (setAttr a "fill" oc) "stroke" "none") "stroke" = some "none" :=
    getAttr_setAttr_self _ _ _
  exact transform_fill_stable ls t _ oc l'
    (nodup_setAttr _ _ _ (nodup_setAttr _ _ _ hnd)) h1 h2 h3 h4 hocne hoclow hfind hhid
    hmode hout

theorem stable_form_K (ls : List LayerConfig) (t : String) (a : Attrs) (oc w : String)
    (hca : getAttr a "class" = none) (hsa : getAttr a "style" = none) :
    transformShapeAttrs [] (some ls) t
        (setAttr (setAttr (setAttr (setAttr a "fill" "none") "stroke" oc) "stroke-width" w)
          "stroke" "none") =
      some (setAttr (setAttr (setAttr (setAttr a "fill" "none") "stroke" oc) "stroke-width" w)
        "stroke" "none") := by
  have hnn : "none".isEmpty = false := by decide
  have h1 : getAttr (setAttr (setAttr (setAttr (setAttr a "fill" "none") "stroke" oc)
      "stroke-width" w) "stroke" "none") "class" = none := by
    rw [getAttr_setAttr_other _ _ _ _ neq_class_stroke,
      getAttr_setAttr_other _ _ _ _ neq_class_sw,
      getAttr_setAttr_other _ _ _ _ neq_class_stroke,
      getAttr_setAttr_other _ _ _ _ neq_class_fill]
    exact hca
  have h2 : getAttr (setAttr (setAttr (setAttr (setAttr a "fill" "none") "stroke" oc)
      "stroke-width" w) "stroke" "none") "style" = none := by
    rw [getAttr_setAttr_other _ _ _ _ neq_style_stroke,
      getAttr_setAttr_other _ _ _ _ neq_style_sw,
      getAttr_setAttr_other _ _ _ _ neq_style_stroke,
      getAttr_setAttr_other _ _ _ _ neq_style_fill]
    exact hsa
  have h3 : getAttr (setAttr (setAttr (setAttr (setAttr a "fill" "none") "stroke" oc)
      "stroke-width" w) "stroke" "none") "fill" = some "none" := by
    rw [getAttr_setAttr_other _ _ _ _ neq_fill_stroke,
      getAttr_setAttr_other _ _ _ _ neq_fill_sw,
      getAttr_setAttr_other _ _ _ _ neq_fill_stroke]
    exact getAttr_setAttr_self _ _ _
  have h4 : getAttr (setAttr (setAttr (setAttr (setAttr a "fill" "none") "stroke" oc)
      "stroke-width" w) "stroke" "none") "stroke" = some "none" :=
    getAttr_setAttr_self _ _ _
  apply transform_kept ls t _ h1 h2
  · have hdf : (directColors (setAttr (setAttr (setAttr (setAttr a "fill" "none") "stroke" oc)
        "stroke-width" w) "stroke" "none")).fill = some "none" := by
      simp [directColors, h3, truthy, hnn]
    rw [hdf]
    exact visibleColor_some_none
  · have hds : (directColors (setAttr (setAttr (setAttr (setAttr a "fill" "none") "stroke" oc)
        "stroke-width" w) "stroke" "none")).stroke = some "none" := by
      simp [directColors, h4, truthy, hnn]
    rw [hds]
    exact visibleColor_some_none

theorem stable_form_B (ls : List LayerConfig) (t : String) (a : Attrs) (oc w : String)
    (l' : LayerConfig)
    (hnd : (a.map Prod.fst).Nodup)
    (hca : getAttr a "class" = none) (hsa : getAttr a "style" = none)
    (hwne : w.isEmpty = false)
    (hocne : oc.isEmpty = false) (hoclow : ¬jsToLower oc = "none")
    (hfind : findLayerConfig oc ls = some l') (hhid : ¬l'.visibility = .hidden)
    (hmode : l'.renderMode = .strokeMode) (hout : l'.outputColor = some oc) :
    transformShapeAttrs [] (some ls) t
        (setAttr (setAttr (setAttr a "fill" "none") "stroke" oc) "stroke-width" w) =
      some (setAttr (setAttr (setAttr a "fill" "none") "stroke" oc) "stroke-width" w) := by
  have h1 : getAttr (setAttr (setAttr (setAttr a "fill" "none") "stroke" oc) "stroke-width" w)
      "class" = none := by
    rw [getAttr_setAttr_other _ _ _ _ neq_class_sw,
      getAttr_setAttr_other _ _ _ _ neq_class_stroke,
      getAttr_setAttr_other _ _ _ _ neq_class_fill]
    exact hca
  have h2 : getAttr (setAttr (setAttr (setAttr a "fill" "none") "stroke" oc) "stroke-width" w)
      "style" = none := by
    rw [getAttr_setAttr_other _ _ _ _ neq_style_sw,
      getAttr_setAttr_other _ _ _ _ neq_style_stroke,
      getAttr_setAttr_other _ _ _ _ neq_style_fill]
    exact hsa
  have h3 : getAttr (setAttr (setAttr (setAttr a "fill" "none") "stroke" oc) "stroke-width" w)
      "fill" = some "none" := by
    rw [getAttr_setAttr_other _ _ _ _ neq_fill_sw,
      getAttr_setAttr_other _ _ _ _ neq_fill_stroke]
    exact getAttr_setAttr_self _ _ _
  have h4 : getAttr (setAttr (setAttr (setAttr a "fill" "none") "stroke" oc) "stroke-width" w)
      "stroke" = some oc := by
    rw [getAttr_setAttr_other _ _ _ _ neq_stroke_sw]
    exact getAttr_setAttr_self _ _ _
  have h5 : getAttr (setAttr (setAttr (setAttr a "fill" "none") "stroke" oc) "stroke-width" w)
      "stroke-width" = some w :=
    getAttr_setAttr_self _ _ _
  exact transform_stroke_stable ls t _ oc w l'
    (nodup_setAttr _ _ _ (nodup_setAttr _ _ _ (nodup_setAttr _ _ _ hnd))) h1 h2 h3 h4 h5
    hwne hocne hoclow hfind hhid hmode hout

/-- Core reproduction lemma: on a clean element, whatever the style map,
a kept output of the rule transformation is a fixed point of a second
(empty-style-map) transformation, provided every rule reproduces its own
output. -/
theorem transform_reproduces (sm : StyleMap) (ls : List LayerConfig) (t : String)
    (a a' : Attrs)
    (hR : rulesSelfReproducing ls = true)
    (hnd : (a.map Prod.fst).Nodup)
    (hca : getAttr a "class" = none) (hsa : getAttr a "style" = none)
    (h : transformShapeAttrs sm (some ls) t a = some a') :
    transformShapeAttrs [] (some ls) t a' = some a' := by
  unfold transformShapeAttrs at h
  rw [getElementColorsA_clean a sm hca hsa, removeAttr_eq_self a "class" hca,
    removeAttr_eq_self a "style" hsa] at h
  cases hvf : visibleColor (directColors a).fill with
  | false =>
    cases hvs : visibleColor (directColors a).stroke with
    | false =>
      simp [hvf, hvs] at h
      rw [← h]
      exact transform_kept ls t a hca hsa hvf hvs
    | true =>
      obtain ⟨sc, hsc⟩ : ∃ sc, (directColors a).stroke = some sc := by
        rcases hx : (directColors a).stroke with _ | sc
        · rw [hx] at hvs
          simp [visibleColor] at hvs
        · exact ⟨sc, rfl⟩
      rw [hsc] at hvs
      rcases hfl : findLayerConfig sc ls with _ | L
      · simp [hvf, hvs, hsc, hfl] at h
      · have hLmem := findLayerConfig_mem sc ls L hfl
        by_cases hLh : L.visibility = .hidden
        · simp [hvf, hvs, hsc, hfl, hLh] at h
        · obtain ⟨oc, l', hoc, hocne, hoclow, hfind', hhid', hmode', hout'⟩ :=
            rule_reproduces_of_mem ls L hR hLmem hLh
          have htr : truthy (some oc) = true := by simp [truthy, hocne]
          cases hrm : L.renderMode with
          | fillMode =>
            by_cases hcanf : t = "circle" ∨ t = "ellipse" ∨ t = "rect" ∨ t = "polygon" ∨
                (t = "path" ∧ isClosedPath (getAttr a "d"))
            · simp [hvf, hvs, hsc, hfl, hLh, htr, hoc, hrm, hcanf] at h
              rw [← h]
              exact stable_form_A ls t a oc l' hnd hca hsa hocne hoclow hfind' hhid'
                (hmode'.trans hrm) hout'
            · simp [hvf, hvs, hsc, hfl, hLh, htr, hoc, hrm, hcanf] at h
              rw [← h]
              exact stable_form_K ls t a oc (orDefault (directColors a).strokeWidth "0.5")
                hca hsa
          | strokeMode =>
            simp [hvf, hvs, hsc, hfl, hLh, htr, hoc, hrm] at h
            rw [← h]
            exact stable_form_B ls t a oc (orDefault (directColors a).strokeWidth "0.5") l'
              hnd hca hsa (orDefault_isEmpty_false _ _ (by decide)) hocne hoclow hfind'
              hhid' (hmode'.trans hrm) hout'
  | true =>
    obtain ⟨cf, hcf⟩ : ∃ cf, (directColors a).fill = some cf := by
      rcases hx : (directColors a).fill with _ | cf
      · rw [hx] at hvf
        simp [visibleColor] at hvf
      · exact ⟨cf, rfl⟩
    rw [hcf] at hvf
    rcases hfl : findLayerConfig cf ls with _ | L
    · cases hvs : visibleColor (directColors a).stroke with
      | false =>
        simp [hvf, hvs, hcf, hfl] at h
      | true =>
        obtain ⟨sc, hsc⟩ : ∃ sc, (directColors a).stroke = some sc := by
          rcases hx : (directColors a).stroke with _ | sc
          · rw [hx] at hvs
            simp [visibleColor] at hvs
          · exact ⟨sc, rfl⟩
        rw [hsc] at hvs
        rcases hfl2 : findLayerConfig sc ls with _ | L
        · simp [hvf, hvs, hcf, hsc, hfl, hfl2] at h
        · have hLmem := findLayerConfig_mem sc ls L hfl2
          by_cases hLh : L.visibility = .hidden
          · simp [hvf, hvs, hcf, hsc, hfl, hfl2, hLh] at h
          · obtain ⟨oc, l', hoc, hocne, hoclow, hfind', hhid', hmode', hout'⟩ :=
              rule_reproduces_of_mem ls L hR hLmem hLh
            have htr : truthy (some oc) = true := by simp [truthy, hocne]
            cases hrm : L.renderMode with
            | fillMode =>
              simp [hvf, hvs, hcf, hsc, hfl, hfl2, hLh, htr, hoc, hrm] at h
              rw [← h]
              exact stable_form_A ls t a oc l' hnd hca hsa hocne hoclow hfind' hhid'
                (hmode'.trans hrm) hout'
            | strokeMode =>
              simp [hvf, hvs, hcf, hsc, hfl, hfl2, hLh, htr, hoc, hrm] at h
              rw [← h]
              exact stable_form_B ls t a oc (orDefault (directColors a).strokeWidth "1") l'
                hnd hca hsa (orDefault_isEmpty_false _ _ (by decide)) hocne hoclow hfind'
                hhid' (hmode'.trans hrm) hout'
    · have hLmem := findLayerConfig_mem cf ls L hfl
      by_cases hLh : L.visibility = .hidden
      · simp [hvf, hcf, hfl, hLh] at h
      · obtain ⟨oc, l', hoc, hocne, hoclow, hfind', hhid', hmode', hout'⟩ :=
          rule_reproduces_of_mem ls L hR hLmem hLh
        have htr : truthy (some oc) = true := by simp [truthy, hocne]
        cases hrm : L.renderMode with
        | fillMode =>
          simp [hvf, hcf, hfl, hLh, htr, hoc, hrm] at h
          rw [← h]
          exact stable_form_A ls t a oc l' hnd hca hsa hocne hoclow hfind' hhid'
            (hmode'.trans hrm) hout'
        | strokeMode =>
          simp [hvf, hcf, hfl, hLh, htr, hoc, hrm] at h
          rw [← h]
          exact stable_form_B ls t a oc (orDefault (directColors a).strokeWidth "1") l'
            hnd hca hsa (orDefault_isEmpty_false _ _ (by decide)) hocne hoclow hfind'
            hhid' (hmode'.trans hrm) hout'

/-- The rule pass on a clean forest produces a stable forest, whatever the
style map, when every rule reproduces its own output. -/
theorem processChildren_stable (sm : StyleMap) (ls : List LayerConfig)
    (hR : rulesSelfReproducing ls = true) :
    ∀ f, forestClean f → stableForest ls (processChildren sm (some ls) f) := by
  refine forest_induction _ ?_ ?_
  · intro _
    simp [processChildren, stableForest]
  · intro t a ch rest ihch ihrest hclean
    simp only [forestClean, nodeClean, attrsClean] at hclean
    obtain ⟨⟨⟨hAc, hAs, hAnd⟩, hch⟩, hrest⟩ := hclean
    cases hsh : isShapeTag t with
    | false =>
      simp only [processChildren, processNode, hsh, Bool.false_eq_true, if_false]
      simp only [stableForest, stableNode]
      refine ⟨⟨?_, ihch hch⟩, ihrest hrest⟩
      intro hcontra
      rw [hsh] at hcontra
      cases hcontra
    | true =>
      rcases htr : transformShapeAttrs sm (some ls) t a with _ | a'
      · simp only [processChildren, processNode, hsh, if_true, htr]
        exact ihrest hrest
      · simp only [processChildren, processNode, hsh, if_true, htr]
        simp only [stableForest, stableNode]
        refine ⟨⟨?_, ihch hch⟩, ihrest hrest⟩
        intro _
        exact transform_reproduces sm ls t a a' hR hAnd hAc hAs htr

/-- Empty-group cleanup preserves stability (it only drops nodes and keeps
the attributes of the survivors). -/
theorem cleanupForest_stable (ls : List LayerConfig) :
    ∀ f, stableForest ls f → stableForest ls (cleanupForest f) := by
  refine forest_induction _ ?_ ?_
  · intro _
    simp [cleanupForest, stableForest]
  · intro t a ch rest ihch ihrest hst
    simp only [stableForest, stableNode] at hst
    obtain ⟨⟨hself, hch⟩, hrest⟩ := hst
    by_cases hg : t = "g" ∧ forestHasShape ch = false
    · simp only [cleanupForest, cleanupNode, if_pos hg]
      exact ihrest hrest
    · simp only [cleanupForest, cleanupNode, if_neg hg]
      simp only [stableForest, stableNode]
      exact ⟨⟨hself, ihch hch⟩, ihrest hrest⟩

/-- A stable forest is a fixed point of the rule pass with an empty style
map. -/
theorem processChildren_of_stable (ls : List LayerConfig) :
    ∀ f, stableForest ls f → processChildren [] (some ls) f = f := by
  refine forest_induction _ ?_ ?_
  · intro _
    simp [processChildren]
  · intro t a ch rest ihch ihrest hst
    simp only [stableForest, stableNode] at hst
    obtain ⟨⟨hself, hch⟩, hrest⟩ := hst
    cases hsh : isShapeTag t with
    | false => simp [processChildren, processNode, hsh, ihch hch, ihrest hrest]
    | true => simp [processChildren, processNode, hsh, hself hsh, ihch hch, ihrest hrest]

/-- Empty-group cleanup does not change whether a forest has a shape
descendant (only shape-free subtrees are dropped). -/
theorem forestHasShape_cleanup :
    ∀ f, forestHasShape (cleanupForest f) = forestHasShape f := by
  refine forest_induction _ rfl ?_
  intro t a ch rest ihch ihrest
  by_cases hg : t = "g" ∧ forestHasShape ch = false
  · have hsh : isShapeTag t = false := by
      rw [hg.1]
      decide
    have hdrop : cleanupForest (XNode.elem t a ch :: rest) = cleanupForest rest := by
      simp only [cleanupForest, cleanupNode, if_pos hg]
    rw [hdrop, ihrest]
    simp only [forestHasShape, subtreeHasShape, hsh, hg.2, Bool.false_or, Bool.or_false]
  · simp only [cleanupForest, cleanupNode, if_neg hg, forestHasShape, subtreeHasShape,
      ihch, ihrest]

/-- Empty-group cleanup is idempotent. -/
theorem cleanupForest_idem :
    ∀ f, cleanupForest (cleanupForest f) = cleanupForest f := by
  refine forest_induction _ rfl ?_
  intro t a ch rest ihch ihrest
  by_cases hg : t = "g" ∧ forestHasShape ch = false
  · simp [cleanupForest, cleanupNode, hg, ihrest]
  · have hg' : ¬(t = "g" ∧ forestHasShape (cleanupForest ch) = false) := by
      rw [forestHasShape_cleanup ch]
      exact hg
    simp [cleanupForest, cleanupNode, hg, hg', ihch, ihrest]

/-- The rule pass never adds a style element. -/
theorem styleCountF_processChildren (sm : StyleMap) (lay : Option (List LayerConfig)) :
    ∀ f, styleCountF (processChildren sm lay f) ≤ styleCountF f := by
  refine forest_induction _ ?_ ?_
  · simp [processChildren, styleCountF]
  · intro t a ch rest ihch ihrest
    cases hsh : isShapeTag t with
    | false =>
      simp only [processChildren, processNode, hsh, Bool.false_eq_true, if_false,
        styleCountF, styleCountN]
      omega
    | true =>
      rcases htr : transformShapeAttrs sm lay t a with _ | a'
      · simp only [processChildren, processNode, hsh, if_true, htr, styleCountF, styleCountN]
        omega
      · simp only [processChildren, processNode, hsh, if_true, htr, styleCountF, styleCountN]
        omega

/-- Empty-group cleanup never adds a style element. -/
theorem styleCountF_cleanup :
    ∀ f, styleCountF (cleanupForest f) ≤ styleCountF f := by
  refine forest_induction _ ?_ ?_
  · simp [cleanupForest, styleCountF]
  · intro t a ch rest ihch ihrest
    by_cases hg : t = "g" ∧ forestHasShape ch = false
    · simp only [cleanupForest, cleanupNode, if_pos hg, styleCountF, styleCountN]
      omega
    · simp only [cleanupForest, cleanupNode, if_neg hg, styleCountF, styleCountN]
      omega

/-- Accounting for the first-style removal: when nothing was removed the
forest is unchanged and had no style element; when something was removed
the style count strictly decreased. -/
theorem removeFirstStyleF_count :
    ∀ f, ((removeFirstStyleF f).2 = false → (removeFirstStyleF f).1 = f ∧
        styleCountF f = 0) ∧
      ((removeFirstStyleF f).2 = true →
        styleCountF (removeFirstStyleF f).1 + 1 ≤ styleCountF f) := by
  refine forest_induction _ ?_ ?_
  · refine ⟨fun _ => ⟨rfl, rfl⟩, fun h => ?_⟩
    simp [removeFirstStyleF] at h
  · intro t a ch rest ihch ihrest
    by_cases hty : t = "style"
    · refine ⟨fun hfalse => ?_, fun _ => ?_⟩
      · simp [removeFirstStyleF, removeFirstStyleN, hty] at hfalse
      · simp only [removeFirstStyleF, removeFirstStyleN, if_pos hty, styleCountF,
          styleCountN, if_pos hty]
        omega
    · rcases hrc : removeFirstStyleF ch with ⟨ch', rc⟩
      cases rc with
      | true =>
        have hch : styleCountF ch' + 1 ≤ styleCountF ch := by
          have hx := ihch.2 (by rw [hrc])
          rw [hrc] at hx
          exact hx
        refine ⟨fun hfalse => ?_, fun _ => ?_⟩
        · simp [removeFirstStyleF, removeFirstStyleN, hty, hrc] at hfalse
        · simp only [removeFirstStyleF, removeFirstStyleN, if_neg hty, hrc, styleCountF,
            styleCountN, if_neg hty]
          omega
      | false =>
        have hcheq : ch' = ch ∧ styleCountF ch = 0 := by
          have hx := ihch.1 (by rw [hrc])
          rw [hrc] at hx
          exact hx
        rcases hrr : removeFirstStyleF rest with ⟨rest', rr⟩
        cases rr with
        | false =>
          have hreq : rest' = rest ∧ styleCountF rest = 0 := by
            have hx := ihrest.1 (by rw [hrr])
            rw [hrr] at hx
            exact hx
          refine ⟨fun _ => ?_, fun htrue => ?_⟩
          · simp only [removeFirstStyleF, removeFirstStyleN, if_neg hty, hrc, hrr,
              styleCountF, styleCountN, if_neg hty]
            rw [hcheq.1, hreq.1]
            refine ⟨rfl, ?_⟩
            have h1 := hcheq.2
            have h2 := hreq.2
            omega
          · simp [removeFirstStyleF, removeFirstStyleN, hty, hrc, hrr] at htrue
        | true =>
          have hrle : styleCountF rest' + 1 ≤ styleCountF rest := by
            have hx := ihrest.2 (by rw [hrr])
            rw [hrr] at hx
            exact hx
          refine ⟨fun hfalse => ?_, fun _ => ?_⟩
          · simp [removeFirstStyleF, removeFirstStyleN, hty, hrc, hrr] at hfalse
          · simp only [removeFirstStyleF, removeFirstStyleN, if_neg hty, hrc, hrr,
              styleCountF, styleCountN, if_neg hty]
            rw [hcheq.1]
            omega

/-- A forest without a style element is untouched by first-style
removal. -/
theorem removeFirstStyleF_eq_self (f : List XNode) (h : styleCountF f = 0) :
    removeFirstStyleF f = (f, false) := by
  rcases hp : removeFirstStyleF f with ⟨f', b⟩
  cases b with
  | true =>
    have hle := (removeFirstStyleF_count f).2 (by rw [hp])
    rw [hp] at hle
    omega
  | false =>
    have heq : f' = f := by
      have hx := ((removeFirstStyleF_count f).1 (by rw [hp])).1
      rw [hp] at hx
      exact hx
    rw [heq]

/-- After first-style removal of a forest with at most one style element,
no style element remains. -/
theorem styleCountF_after_remove (f : List XNode) (h : styleCountF f ≤ 1) :
    styleCountF (removeFirstStyleF f).1 = 0 := by
  rcases hp : removeFirstStyleF f with ⟨f', b⟩
  cases b with
  | true =>
    have hle := (removeFirstStyleF_count f).2 (by rw [hp])
    rw [hp] at hle
    omega
  | false =>
    have heq := (removeFirstStyleF_count f).1 (by rw [hp])
    rw [hp] at heq
    rw [heq.1]
    exact heq.2

/-- First-style removal preserves cleanliness (it only drops a subtree and
keeps every other node's attributes). -/
theorem removeFirstStyleF_clean :
    ∀ f, forestClean f → forestClean (removeFirstStyleF f).1 := by
  refine forest_induction _ ?_ ?_
  · intro h
    exact h
  · intro t a ch rest ihch ihrest hclean
    simp only [forestClean, nodeClean] at hclean
    obtain ⟨⟨hA, hch⟩, hrest⟩ := hclean
    by_cases hty : t = "style"
    · simp only [removeFirstStyleF, removeFirstStyleN, if_pos hty]
      exact hrest
    · rcases hrc : removeFirstStyleF ch with ⟨ch', rc⟩
      have hch' : forestClean ch' := by
        have := ihch hch
        rw [hrc] at this
        exact this
      cases rc with
      | true =>
        simp only [removeFirstStyleF, removeFirstStyleN, if_neg hty, hrc]
        simp only [forestClean, nodeClean]
        exact ⟨⟨hA, hch'⟩, hrest⟩
      | false =>
        rcases hrr : removeFirstStyleF rest with ⟨rest', rr⟩
        have hrest' : forestClean rest' := by
          have := ihrest hrest
          rw [hrr] at this
          exact this
        simp only [removeFirstStyleF, removeFirstStyleN, if_neg hty, hrc, hrr]
        simp only [forestClean, nodeClean]
        exact ⟨⟨hA, hch'⟩, hrest'⟩

/-- Claim C5 (counterexample): idempotence fails for an arbitrary rule
list.  Under the single rule `outColorRule` (match `#0000ff`, fill mode,
output color `#123456`) the closed blue path is painted `#123456`; feeding
that output back removes the element entirely, because `#123456` matches
no rule and the pass drops colored shapes without a matching rule. -/
theorem layer_idempotence_claim_false :
    processLayersForPanel noBBox noDBBox (.doc [] [] [closedBluePath])
        (some [outColorRule]) {} = .processed [paintedBluePath] ∧
    processLayersForPanel noBBox noDBBox (.doc [] [] [paintedBluePath])
        (some [outColorRule]) {} = .processed [] ∧
    [paintedBluePath] ≠ ([] : List XNode) :=
  ⟨rfl, rfl, by simp⟩

/-- Claim C5 (amended): idempotence holds under the hypotheses the spec
implicitly assumes of real presets and documents: every rule reproduces
its own output (its output color resolves back to a rule of the same
render mode and output color, as in all shipped presets), the document is
already inlined (clean attributes: no class/style scoping, unique
attribute names), it holds at most one style element, and the ornament
and backer post-passes are off.  The second run is given the output
markup, whose style element is gone, hence the empty style map. -/
theorem layer_idempotence_amended (bb : XNode → Option Rect) (db : String → Option Rect)
    (sm : StyleMap) (ra : Attrs) (ch : List XNode) (ls : List LayerConfig)
    (opts : ProcessingOptions) (out : List XNode)
    (hR : rulesSelfReproducing ls = true)
    (hclean : forestClean ch)
    (hstyle : styleCountF ch ≤ 1)
    (hopt1 : opts.removeOrnamentHole = false) (hopt2 : opts.addRoundBacker = false)
    (h : processLayersForPanel bb db (.doc sm ra ch) (some ls) opts = .processed out) :
    processLayersForPanel bb db (.doc [] ra out) (some ls) opts = .processed out := by
  have hout : out = cleanupForest (processChildren sm (some ls) (removeFirstStyleF ch).1) := by
    rcases hvb : getSvgViewBox ra with _ | vb
    · simp [processLayersForPanel, processedBeforeCover, hvb, hopt1, hopt2] at h
      exact h.symm
    · simp [processLayersForPanel, processedBeforeCover, hvb, hopt1, hopt2] at h
      exact h.symm
  have hclean0 : forestClean (removeFirstStyleF ch).1 := removeFirstStyleF_clean ch hclean
  have hstable : stableForest ls out := by
    rw [hout]
    exact cleanupForest_stable ls _ (processChildren_stable sm ls hR _ hclean0)
  have hcount0 : styleCountF (removeFirstStyleF ch).1 = 0 := styleCountF_after_remove ch hstyle
  have hcountOut : styleCountF out = 0 := by
    rw [hout]
    have h1 := styleCountF_processChildren sm (some ls) (removeFirstStyleF ch).1
    have h2 := styleCountF_cleanup (processChildren sm (some ls) (removeFirstStyleF ch).1)
    omega
  have hrm2 : removeFirstStyleF out = (out, false) := removeFirstStyleF_eq_self out hcountOut
  have hproc2 : processChildren [] (some ls) out = out := processChildren_of_stable ls out hstable
  have hcl2 : cleanupForest out = out := by
    rw [hout]
    exact cleanupForest_idem _
  rcases hvb : getSvgViewBox ra with _ | vb
  · simp [processLayersForPanel, processedBeforeCover, hvb, hopt1, hopt2, hrm2, hproc2, hcl2]
  · simp [processLayersForPanel, processedBeforeCover, hvb, hopt1, hopt2, hrm2, hproc2, hcl2]

/-- Claim C5 (witness): the standard preset is self-reproducing, and a
clean one-path document under it is processed to a fixed point: the second
pass reproduces the first pass's output. -/
theorem layer_idempotence_witness :
    rulesSelfReproducing standardPreset = true ∧
    processLayersForPanel noBBox noDBBox
        (.doc [] [] (cleanupForest (processChildren [] (some standardPreset)
          [greenClosedPath]))) (some standardPreset) ⟨false, false, 1/2⟩ =
      .processed (cleanupForest (processChildren [] (some standardPreset)
        [greenClosedPath])) :=
  ⟨by decide,
   layer_idempotence_amended noBBox noDBBox [] [] [greenClosedPath] standardPreset
     ⟨false, false, 1/2⟩ _ (by decide)
     (by simp [forestClean, nodeClean, attrsClean, greenClosedPath, getAttr])
     (by decide) rfl rfl rfl⟩

/-- Claim C9 (counterexample): monotonicity of the fitted font size in the
box height fails across the degenerate guard: at height 0 the fallback
font size is 12, while at the slightly larger height 1/100 the computed,
clamped size is 1 — increasing the height decreased the result. -/
theorem textfit_monotone_claim_false :
    (calculateTextFit constMeasure "A" ⟨0, 0, 10, 0⟩).fontSize = 12 ∧
    (calculateTextFit constMeasure "A" ⟨0, 0, 10, 1/100⟩).fontSize = 1 := by
  constructor
  · norm_num [calculateTextFit]
  · norm_num [calculateTextFit, constMeasure]
    rfl

/-- Claim C9 (amended): for non-empty text, positive box width and
POSITIVE box heights, the fitted font size is a non-decreasing function of
the box height (width held fixed); the original claim fails only across
the non-positive-height fallback. -/
theorem textfit_monotone_amended (measure : ℚ → TextMetrics) (text : String)
    (box : LabelBox) (h1 h2 : ℚ) (ht : text.isEmpty = false) (hw : 0 < box.width)
    (hh1 : 0 < h1) (hle : h1 ≤ h2) :
    (calculateTextFit measure text { box with height := h1 }).fontSize ≤
      (calculateTextFit measure text { box with height := h2 }).fontSize := by
  have hh2 : 0 < h2 := lt_of_lt_of_le hh1 hle
  have hcond1 : ¬(text.isEmpty = true ∨ box.width ≤ 0 ∨ h1 ≤ 0) := by
    simp [ht, not_le, hw, hh1]
  have hcond2 : ¬(text.isEmpty = true ∨ box.width ≤ 0 ∨ h2 ≤ 0) := by
    simp [ht, not_le, hw, hh2]
  simp only [calculateTextFit, hcond1, hcond2, if_neg, if_false]
  have hmh : 0 < (if 0 < (measure 100).height then (measure 100).height else 100 * 1.2) := by
    split
    · assumption
    · norm_num
  gcongr

/-- Claim C9 (witness): the amended monotonicity at a concrete oracle,
text and boxes of heights 1 and 2. -/
theorem textfit_monotone_witness :
    "A".isEmpty = false ∧ (0 : ℚ) < 10 ∧ (0 : ℚ) < 1 ∧ (1 : ℚ) ≤ 2 ∧
    (calculateTextFit constMeasure "A" ⟨0, 0, 10, 1⟩).fontSize ≤
      (calculateTextFit constMeasure "A" ⟨0, 0, 10, 2⟩).fontSize :=
  ⟨rfl, by norm_num, by norm_num, by norm_num,
    textfit_monotone_amended constMeasure "A" ⟨0, 0, 10, 0⟩ 1 2 rfl (by norm_num) (by norm_num)
      (by norm_num)⟩
